import Mathlib

set_option maxRecDepth 8000

/-! Shallow embedding of the MagicaVoxel to Chisels-and-Bits pattern converter
(src/main.rs) together with proofs about its behaviour.

Modelling conventions. Machine integers are `Nat` with an explicit `% 2^w`
wherever wraparound matters (`u8` casts become `% 256`). Rust panics (`unwrap`,
out-of-bounds indexing, integer overflow) are modelled as `Except.error ()`.
The external compression libraries (the lz4 frame encoder and the zlib
deflate) are abstract byte-transformers passed as parameters, and the sRGB to
Lch conversion plus the CIEDE2000 metric of the `palette` crate are an
abstract colour type `γ` with a rational-valued distance function: the crate
code is outside the repository, while every algorithmic choice made by
`main.rs` itself is modelled concretely. Strings are byte lists. -/

namespace CNI

/-- `const BLOCK_SIDE: usize = 16` from the source. -/
def BLOCK_SIDE : Nat := 16

/-- `const VOXEL_MAX_SIDE: usize = 255` from the source. -/
def VOXEL_MAX_SIDE : Nat := 255

/-- `fn index_from_position(x: u8, y: u8, z: u8) -> usize`:
`x * 255 * 255 + y * 255 + z` with all operands widened to `usize`. -/
def index_from_position (x y z : Nat) : Nat :=
  x * VOXEL_MAX_SIDE * VOXEL_MAX_SIDE + y * VOXEL_MAX_SIDE + z

/-- `fn position_from_index(index: usize) -> (u8, u8, u8)`. The final `as u8`
casts are the `% 256`. -/
def position_from_index (index : Nat) : Nat × Nat × Nat :=
  let x := index / (BLOCK_SIDE * BLOCK_SIDE)
  let y := (index - x * BLOCK_SIDE * BLOCK_SIDE) / BLOCK_SIDE
  let z := index - x * BLOCK_SIDE * BLOCK_SIDE - y * BLOCK_SIDE
  (x % 256, y % 256, z % 256)

/-- The voxel-model array index consulted by the `model_to_data` loop body for
local chunk index `i`: the source reads `(x, y, z) = position_from_index(i)`,
then `x += offset.1; y += offset.2; z += offset.0` (wrapping `u8` addition,
hence the `% 256`) and looks up `index_from_position(z, x, y)`. -/
def consulted_index (offset : Nat × Nat × Nat) (i : Nat) : Nat :=
  let p := position_from_index i
  index_from_position ((p.2.2 + offset.1) % 256) ((p.1 + offset.2.1) % 256)
    ((p.2.1 + offset.2.2) % 256)

/-- Fuel-driven ceiling base-2 logarithm; `entry_width` instantiates the fuel. -/
def entry_width_fuel : Nat → Nat → Nat
  | 0, _ => 0
  | fuel + 1, p => if p ≤ 1 then 0 else entry_width_fuel fuel ((p + 1) / 2) + 1

/-- `let entry_width = f32::log2(palette.len() as f32).ceil() as u32` from
`model_to_data`. For every palette length reachable in the program (at most
257, far below the range where `f32` rounding could move `log2` across an
integer) the float expression computes exactly the ceiling base-2 logarithm,
which this structural definition implements. -/
def entry_width (p : Nat) : Nat := entry_width_fuel p p

theorem entry_width_fuel_eq_clog (fuel p : Nat) (h : p ≤ fuel) :
    entry_width_fuel fuel p = Nat.clog 2 p := by
  induction fuel generalizing p with
  | zero =>
    interval_cases p
    simp [entry_width_fuel]
  | succ n ih =>
    by_cases hp : p ≤ 1
    · rw [entry_width_fuel, if_pos hp, Nat.clog_of_right_le_one hp]
    · rw [entry_width_fuel, if_neg hp,
        Nat.clog_of_two_le (by norm_num) (by omega), ih _ (by omega)]
      norm_num

theorem entry_width_eq_clog (p : Nat) : entry_width p = Nat.clog 2 p :=
  entry_width_fuel_eq_clog p p le_rfl

/-! Bit and byte level helpers. `BitWriter::endian(_, LittleEndian)` emits the
low `w` bits of each written value, least significant bit first, packing the
resulting bit stream into bytes whose bit `k` carries weight `2^k`; a byte is
flushed once complete, and a trailing partial byte is dropped when the writer
is dropped without `byte_align` (in `model_to_data` the stream length
`4096 * w` is always a multiple of 8, so nothing is dropped). -/

/-- The `w` low bits of `v`, least significant first. -/
def natToBitsLE (w v : Nat) : List Bool :=
  (List.range w).map (fun i => v.testBit i)

/-- Reassemble one byte from up to eight bits, bit `k` weighted `2^k`. -/
def byteOfBits (bits : List Bool) : Nat :=
  bits.foldr (fun b acc => 2 * acc + (if b then 1 else 0)) 0

/-- Pack a bit stream into completed bytes, dropping a trailing partial byte. -/
def bitsToBytes (bits : List Bool) : List Nat :=
  if _h : bits.length < 8 then []
  else byteOfBits (bits.take 8) :: bitsToBytes (bits.drop 8)
termination_by bits.length
decreasing_by simp; omega

theorem bitsToBytes_length (bits : List Bool) :
    (bitsToBytes bits).length = bits.length / 8 := by
  induction bits using bitsToBytes.induct with
  | case1 bits h => rw [bitsToBytes, dif_pos h]; simp only [List.length_nil]; omega
  | case2 bits h ih =>
    rw [bitsToBytes, dif_neg h]
    simp only [List.length_cons, ih, List.length_drop]
    omega

/-- `b as i8` on a byte value `b : u8`. -/
def byteToI8 (b : Nat) : Int := if b < 128 then (b : Int) else (b : Int) - 256

/-- The wire byte of an `i8` value (its two's complement bit pattern). -/
def i8ToByte (v : Int) : Nat := (v % 256).toNat

theorem byteToI8_i8ToByte (v : Int) (h1 : -128 ≤ v) (h2 : v < 128) :
    byteToI8 (i8ToByte v) = v := by
  unfold byteToI8 i8ToByte
  split <;> omega

/-- Error-propagating list traversal: the functional reading of a Rust loop
whose body can panic, with `Except.error ()` standing for the panic. -/
def mapMExcept (f : α → Except Unit β) : List α → Except Unit (List β)
  | [] => .ok []
  | a :: l =>
    match f a with
    | .error e => .error e
    | .ok b =>
      match mapMExcept f l with
      | .error e => .error e
      | .ok bs => .ok (b :: bs)

theorem mapMExcept_map (f : α → Except Unit β) (g : α → β) (l : List α)
    (h : ∀ a ∈ l, f a = .ok (g a)) : mapMExcept f l = .ok (l.map g) := by
  induction l with
  | nil => rfl
  | cons a l ih =>
    rw [mapMExcept, h a (by simp), ih (fun x hx => h x (by simp [hx]))]
    simp

theorem mapMExcept_ok_length (f : α → Except Unit β) (l : List α)
    (bs : List β) (h : mapMExcept f l = .ok bs) : bs.length = l.length := by
  induction l generalizing bs with
  | nil => cases h; rfl
  | cons a l ih =>
    rw [mapMExcept] at h
    cases hf : f a with
    | error e => rw [hf] at h; cases h
    | ok b =>
      rw [hf] at h
      cases hm : mapMExcept f l with
      | error e => rw [hm] at h; cases h
      | ok bs' => rw [hm] at h; cases h; simp [ih bs' hm]

theorem mapMExcept_ok_eq_map (f : α → Except Unit β) (g : α → β) (l : List α)
    (bs : List β) (hdet : ∀ a ∈ l, ∀ b, f a = .ok b → b = g a)
    (h : mapMExcept f l = .ok bs) : bs = l.map g := by
  induction l generalizing bs with
  | nil => cases h; rfl
  | cons a l ih =>
    rw [mapMExcept] at h
    cases hf : f a with
    | error e => rw [hf] at h; cases h
    | ok b =>
      rw [hf] at h
      cases hm : mapMExcept f l with
      | error e => rw [hm] at h; cases h
      | ok bs' =>
        rw [hm] at h
        cases h
        rw [List.map_cons, hdet a (by simp) b hf,
          ih bs' (fun x hx => hdet x (by simp [hx])) hm]

/-! The data model: the serde structs of the source, with strings as byte
lists and `Vec<i8>` as `List Int`. -/

/-- `struct PaletteEntry { state: String }`. -/
structure PaletteEntry where
  state : List Nat
deriving DecidableEq

/-- `struct BlockState { block_information: &PaletteEntry, count: u32 }`. -/
structure BlockState where
  block_information : PaletteEntry
  count : Nat
deriving DecidableEq

/-- `struct Statistics { primary_state: &PaletteEntry, block_states: Vec<BlockState> }`. -/
structure Statistics where
  primary_state : PaletteEntry
  block_states : List BlockState
deriving DecidableEq

/-- `struct ChiselData { data: ByteArray, palette: &[PaletteEntry] }`. -/
structure ChiselData where
  data : List Int
  palette : List PaletteEntry
deriving DecidableEq

/-- `struct Data { chiseled_data: ChiselData, statistics: Statistics }`. -/
structure Data where
  chiseled_data : ChiselData
  statistics : Statistics
deriving DecidableEq

/-- One voxel of the loaded model: `dot_vox::Voxel { x, y, z, i }`, all `u8`. -/
structure Voxel where
  x : Nat
  y : Nat
  z : Nat
  i : Nat
deriving DecidableEq

/-! `model_to_data`. The dense `Box<[Option<u8>]>` of length `255^3` is
modelled as the function from array index to stored cell, with every access
bounds-checked exactly as Rust's indexing is. -/

/-- One read `model[index_from_position(z, x, y)]` of the loop body of
`model_to_data`; an index at or past the array length `255^3` is the
out-of-bounds panic. -/
def cellRaw (model : Nat → Option Nat) (offset : Nat × Nat × Nat) (i : Nat) :
    Except Unit (Option Nat) :=
  if consulted_index offset i < VOXEL_MAX_SIDE * VOXEL_MAX_SIDE * VOXEL_MAX_SIDE then
    .ok (model (consulted_index offset i))
  else
    .error ()

/-- Resolve one cell to its chunk-palette index: a present voxel goes through
`palette_mapping.get(&v).unwrap()` (panic when the colour is unmapped), an
absent one gets the air index `(palette.len() - 1) as u8`. -/
def cellToVal (p : Nat) (palette_mapping : Nat → Option Nat) :
    Option Nat → Except Unit Nat
  | none => .ok ((p - 1) % 256)
  | some v =>
    match palette_mapping v with
    | none => .error ()
    | some m => .ok m

/-- The per-material counters: start from `palette.len()` zeroed `BlockState`
counts and do `block_states.get_mut(val).unwrap().count += 1` per value. -/
def countsOf (p : Nat) (vals : List Nat) : List Nat :=
  vals.foldl (fun cs v => cs.set v (cs.getD v 0 + 1)) (List.replicate p 0)

/-- `fn model_to_data(model, palette, palette_mapping, offset)
    -> Option<(Vec<i8>, Statistics)>`.

The source interleaves reading, bit-writing and counting in one loop over the
`16*16*16` local indices; this embedding runs the same per-index computations
as list traversals and gathers every panic condition of the loop into
`Except.error ()`: an out-of-bounds model read, a missing `palette_mapping`
entry, an empty palette (`palette.len() - 1` underflows and the zero-width
bit write of a non-zero value errors), a `BitWriter::write` of a value that
does not fit the entry width (or a width above the 8 bits of `u8`), and a
`block_states.get_mut(val)` out of range. The emitted buffer is the
little-endian bit packing of the resolved values mapped through `as i8`, and
`only_air` is set exactly when no consulted cell holds a voxel. -/
def model_to_data (model : Nat → Option Nat) (palette : List PaletteEntry)
    (palette_mapping : Nat → Option Nat) (offset : Nat × Nat × Nat) :
    Except Unit (Option (List Int × Statistics)) :=
  let p := palette.length
  if p = 0 then .error ()
  else
    let w := entry_width p
    match mapMExcept (cellRaw model offset) (List.range (BLOCK_SIDE * BLOCK_SIDE * BLOCK_SIDE)) with
    | .error _ => .error ()
    | .ok cells =>
      match mapMExcept (cellToVal p palette_mapping) cells with
      | .error _ => .error ()
      | .ok vals =>
        if vals.all (fun v => decide (v < 2 ^ w) && decide (v < p)) && decide (w ≤ 8) then
          if cells.all (fun c => c.isNone) then .ok none
          else
            .ok (some ((bitsToBytes (vals.flatMap (natToBitsLE w))).map byteToI8,
              { primary_state := palette.headD ⟨[]⟩,
                block_states :=
                  (palette.zip (countsOf p vals)).map fun e =>
                    { block_information := e.1, count := e.2 } }))
        else .error ()

/-! `create_patterns` and its helpers. -/

/-- JSON bytes of `format!("{{\"Name\":\"{}\"}}", name)`: the characters
`{"Name":"` then the material identifier then `"}`. -/
def nameState (name : List Nat) : List Nat :=
  [123, 34, 78, 97, 109, 101, 34, 58, 34] ++ name ++ [34, 125]

/-- The synthetic trailing entry `{"Name":"minecraft:air"}` (the bytes of
`minecraft:air` spelled out). -/
def airEntry : PaletteEntry :=
  ⟨nameState [109, 105, 110, 101, 99, 114, 97, 102, 116, 58, 97, 105, 114]⟩

/-- `BlockPalette::closest_block`: map every palette entry to its distance to
the input colour, sort by distance (`f32::total_cmp` is a total order, here the
order of `ℚ`), and take the first entry. Returns `none` exactly where the
source panics: `color_diffs.first().unwrap()` on an empty palette. The colour
conversion and the CIEDE2000 metric live in the external `palette` crate and
enter as the abstract distance `d`. -/
def closest_block {γ : Type} (d : γ → γ → ℚ) (mapping : List (γ × List Nat))
    (color : γ) : Option (List Nat) :=
  let color_diffs := mapping.map fun bc => (d bc.1 color, bc.2)
  let sorted := color_diffs.mergeSort fun l r => decide (l.1 ≤ r.1)
  sorted.head?.map Prod.snd

/-- `BlockPalette::from_json` after the external `serde_json` parse: convert
each hex-colour key with the external parser (failing keys are the
`expect("invalid color code in palette")` panic) and keep the material name.
An empty map is accepted and yields an empty palette. -/
def from_json {γ : Type} (parse_color : List Nat → Option γ)
    (entries : List (List Nat × List Nat)) : Except Unit (List (γ × List Nat)) :=
  mapMExcept
    (fun kv =>
      match parse_color kv.1 with
      | none => .error ()
      | some c => .ok (c, kv.2))
    entries

/-- The dense voxel lookup built at the start of `create_patterns` as the
function from array index to final cell content: each voxel writes
`Some(voxel.i)` at `index_from_position(x, y, z)`, later writes overwriting
earlier ones. -/
def model_data_fun (voxels : List Voxel) (idx : Nat) : Option Nat :=
  voxels.foldl
    (fun acc v => if index_from_position v.x v.y v.z = idx then some v.i else acc)
    none

/-- The chunk-palette translation loop of `create_patterns`, iterating over
the used-colour set in its (unspecified) iteration order `order`: resolve each
colour slot through the model palette (`unwrap` panic when absent), find its
closest block (panic on an empty block palette) and append the air entry
last. -/
def chisel_palette_of {γ : Type} (d : γ → γ → ℚ)
    (block_palette : List (γ × List Nat)) (vox_palette : List γ)
    (order : List Nat) : Except Unit (List PaletteEntry) :=
  match
    mapMExcept
      (fun c =>
        match vox_palette[c]? with
        | none => .error ()
        | some col =>
          match closest_block d block_palette col with
          | none => .error ()
          | some name => .ok (⟨nameState name⟩ : PaletteEntry))
      order
  with
  | .error e => .error e
  | .ok entries => .ok (entries ++ [airEntry])

/-- `(size / 16).ceil()` for one axis; the source computes it in `f32`, exact
for every representable model dimension below `2^24`. -/
def chunks_along (s : Nat) : Nat := (s + BLOCK_SIDE - 1) / BLOCK_SIDE

/-- The chunk base offsets in enumeration order: `x` outermost, `z` innermost,
each scaled by `BLOCK_SIDE`. -/
def chunk_offsets (sx sy sz : Nat) : List (Nat × Nat × Nat) :=
  (List.range (chunks_along sx)).flatMap fun x =>
    (List.range (chunks_along sy)).flatMap fun y =>
      (List.range (chunks_along sz)).map fun z =>
        (x * BLOCK_SIDE, y * BLOCK_SIDE, z * BLOCK_SIDE)

/-- The chunk loop of `create_patterns`: run `step` on every offset in order;
a `None` chunk is skipped (`continue`), an emitted chunk gets the current
0-based `index` as its file suffix (or no suffix when `one_pattern`) and the
counter then increments. -/
def emit_loop (step : Nat × Nat × Nat → Except Unit (Option (List Nat)))
    (one_pattern : Bool) :
    List (Nat × Nat × Nat) → Nat → Except Unit (List (Option Nat × List Nat))
  | [], _ => .ok []
  | o :: os, idx =>
    match step o with
    | .error e => .error e
    | .ok none => emit_loop step one_pattern os idx
    | .ok (some pat) =>
      match emit_loop step one_pattern os (idx + 1) with
      | .error e => .error e
      | .ok files => .ok ((if one_pattern then none else some idx, pat) :: files)

/-! The pattern codec, `data_to_pattern`. `fastnbt::to_bytes` writes the NBT
binary form of the serde structs: a root compound with empty name, named tags
with one type byte and a big-endian `u16` name length, `u16`/`u32` big-endian
payload lengths, struct fields in declaration order (serde renames applied),
`u8` as TAG_Byte (1), `u32` as TAG_Int (3), `ByteArray` as TAG_Byte_Array (7),
`String` as TAG_String (8), slices as TAG_List (9) and nested structs as
TAG_Compound (10). Every `EncodedChunk` has a non-empty palette and
`block_states`, so the list element type is always TAG_Compound here. -/

/-- Big-endian 2-byte encoding of a `u16` value. -/
def be16 (n : Nat) : List Nat := [n / 256 % 256, n % 256]

/-- Big-endian 4-byte encoding of a `u32` (or non-negative `i32`) value. -/
def be32 (n : Nat) : List Nat :=
  [n / 16777216 % 256, n / 65536 % 256, n / 256 % 256, n % 256]

/-- TAG_String payload: `u16` length then the bytes. -/
def nbtString (s : List Nat) : List Nat := be16 s.length ++ s

/-- A named NBT tag: type byte, name as a `u16`-length string, payload. -/
def nbtNamedTag (ty : Nat) (name : List Nat) (payload : List Nat) : List Nat :=
  ty :: (nbtString name ++ payload)

/-- TAG_Compound payload: the named member tags then the TAG_End byte. -/
def nbtCompoundPayload (fields : List Nat) : List Nat := fields ++ [0]

/-- Field-name bytes`"state"`. -/
def stateKey : List Nat := [115, 116, 97, 116, 101]

/-- Field-name bytes `"chiseledData"` (serde rename of `chiseled_data`). -/
def chiseledDataKey : List Nat :=
  [99, 104, 105, 115, 101, 108, 101, 100, 68, 97, 116, 97]

/-- Field-name bytes `"data"`. -/
def dataKey : List Nat := [100, 97, 116, 97]

/-- Field-name bytes `"palette"`. -/
def paletteKey : List Nat := [112, 97, 108, 101, 116, 116, 101]

/-- Field-name bytes `"statistics"`. -/
def statisticsKey : List Nat := [115, 116, 97, 116, 105, 115, 116, 105, 99, 115]

/-- Field-name bytes `"primaryState"` (serde rename of `primary_state`). -/
def primaryStateKey : List Nat :=
  [112, 114, 105, 109, 97, 114, 121, 83, 116, 97, 116, 101]

/-- Field-name bytes `"blockStates"` (serde rename of `block_states`). -/
def blockStatesKey : List Nat :=
  [98, 108, 111, 99, 107, 83, 116, 97, 116, 101, 115]

/-- Field-name bytes `"block_information"` (no serde rename in the source). -/
def blockInformationKey : List Nat :=
  [98, 108, 111, 99, 107, 95, 105, 110, 102, 111, 114, 109, 97, 116, 105, 111, 110]

/-- Field-name bytes `"count"`. -/
def countKey : List Nat := [99, 111, 117, 110, 116]

/-- Field-name bytes `"version"`. -/
def versionKey : List Nat := [118, 101, 114, 115, 105, 111, 110]

/-- Field-name bytes `"compressed"`. -/
def compressedKey : List Nat := [99, 111, 109, 112, 114, 101, 115, 115, 101, 100]

/-- NBT compound payload of one `PaletteEntry`. -/
def paletteEntryNbt (e : PaletteEntry) : List Nat :=
  nbtCompoundPayload (nbtNamedTag 8 stateKey (nbtString e.state))

/-- NBT compound payload of one `BlockState`. -/
def blockStateNbt (bs : BlockState) : List Nat :=
  nbtCompoundPayload
    (nbtNamedTag 10 blockInformationKey (paletteEntryNbt bs.block_information) ++
      nbtNamedTag 3 countKey (be32 bs.count))

/-- The named `chiseledData` compound tag. -/
def chiseledNbt (cd : ChiselData) : List Nat :=
  nbtNamedTag 10 chiseledDataKey
    (nbtCompoundPayload
      (nbtNamedTag 7 dataKey
          (be32 cd.data.length ++ cd.data.map i8ToByte) ++
        nbtNamedTag 9 paletteKey
          (10 :: (be32 cd.palette.length ++
            cd.palette.flatMap paletteEntryNbt))))

/-- The named `statistics` compound tag. -/
def statisticsNbt (st : Statistics) : List Nat :=
  nbtNamedTag 10 statisticsKey
    (nbtCompoundPayload
      (nbtNamedTag 10 primaryStateKey (paletteEntryNbt st.primary_state) ++
        nbtNamedTag 9 blockStatesKey
          (10 :: (be32 st.block_states.length ++
            st.block_states.flatMap blockStateNbt))))

/-- `fastnbt::to_bytes(&output_data)`: the NBT document of the `Data` struct. -/
def dataNbt (doc : Data) : List Nat :=
  nbtNamedTag 10 []
    (nbtCompoundPayload (chiseledNbt doc.chiseled_data ++ statisticsNbt doc.statistics))

/-- `fastnbt::to_bytes(&container)`: the outer NBT document
`DataContainer { version: 0u32, data: CompressedData { data, compressed: 1u8 } }`;
`compressed` holds the lz4 output re-signed byte for byte (`b as i8`), so the
wire bytes are the lz4 output itself. -/
def containerNbt (compressed : List Nat) : List Nat :=
  nbtNamedTag 10 []
    (nbtCompoundPayload
      (nbtNamedTag 3 versionKey (be32 0) ++
        nbtNamedTag 10 dataKey
          (nbtCompoundPayload
            (nbtNamedTag 7 dataKey (be32 compressed.length ++ compressed) ++
              nbtNamedTag 1 compressedKey [1]))))

/-- One character of the standard base64 alphabet. -/
def b64char (n : Nat) : Nat :=
  if n < 26 then 65 + n
  else if n < 52 then 97 + (n - 26)
  else if n < 62 then 48 + (n - 52)
  else if n = 62 then 43
  else 47

/-- `base64::engine::general_purpose::STANDARD.encode`: standard alphabet,
with `=` (61) padding. -/
def base64encode : List Nat → List Nat
  | b0 :: b1 :: b2 :: rest =>
    let n := b0 * 65536 + b1 * 256 + b2
    b64char (n / 262144) :: b64char (n / 4096 % 64) :: b64char (n / 64 % 64) ::
      b64char (n % 64) :: base64encode rest
  | [b0, b1] =>
    let n := b0 * 65536 + b1 * 256
    [b64char (n / 262144), b64char (n / 4096 % 64), b64char (n / 64 % 64), 61]
  | [b0] =>
    let n := b0 * 65536
    [b64char (n / 262144), b64char (n / 4096 % 64), 61, 61]
  | [] => []

/-- The bytes `{"chiselData":"` opening the pattern JSON (field order is the
struct declaration order: `chisel_data` renamed `chiselData`, then `version`). -/
def jsonHead : List Nat :=
  [123, 34, 99, 104, 105, 115, 101, 108, 68, 97, 116, 97, 34, 58, 34]

/-- The bytes `","version":"1.0"}` closing the pattern JSON. -/
def jsonTail : List Nat :=
  [34, 44, 34, 118, 101, 114, 115, 105, 111, 110, 34, 58, 34, 49, 46, 48, 34, 125]

/-- `serde_json::to_vec(&pattern)`: the base64 text (whose alphabet needs no
JSON escaping) spliced between the fixed head and tail. -/
def patternJson (b64 : List Nat) : List Nat := jsonHead ++ b64 ++ jsonTail

/-- `fn data_to_pattern(data: ChiselData, statistics: Statistics) -> Vec<u8>`:
NBT-encode the document, lz4-frame-compress, wrap in the outer NBT container,
base64, JSON-wrap, base64 again, zlib-deflate (level 6). The two external
compressors enter as the abstract byte transformers `lz4C` and `zlibC`. -/
def data_to_pattern (zlibC lz4C : List Nat → List Nat) (doc : Data) : List Nat :=
  let chisel_nbt := dataNbt doc
  let compressed_chisel_nbt := lz4C chisel_nbt
  let container_nbt := containerNbt compressed_chisel_nbt
  let nbt_base64 := base64encode container_nbt
  let pattern_bytes := patternJson nbt_base64
  let pattern_string := base64encode pattern_bytes
  zlibC pattern_string

/-- `fn create_patterns(model, block_palette, voxel_data, path_prefix)`,
returning the list of (file-name suffix, pattern bytes) pairs instead of
writing files. The steps, in source order: build the dense voxel lookup (a
voxel whose `index_from_position` falls outside the `255^3` array is the
out-of-bounds write panic, checked up front since it precedes everything
else), translate the used colours (iterated in the set order `order`) into
the chunk palette with the air entry last, record each colour's insertion
position `as u8` in `palette_mapping`, then walk the chunk offsets emitting
one pattern per non-air chunk. -/
def create_patterns {γ : Type} (zlibC lz4C : List Nat → List Nat)
    (d : γ → γ → ℚ) (block_palette : List (γ × List Nat))
    (vox_palette : List γ) (order : List Nat) (voxels : List Voxel)
    (sx sy sz : Nat) : Except Unit (List (Option Nat × List Nat)) :=
  if voxels.all fun v =>
      decide (index_from_position v.x v.y v.z <
        VOXEL_MAX_SIDE * VOXEL_MAX_SIDE * VOXEL_MAX_SIDE) then
    match chisel_palette_of d block_palette vox_palette order with
    | .error e => .error e
    | .ok chisel_palette =>
      let palette_mapping := fun c =>
        (List.findIdx? (fun x => x == c) order).map (· % 256)
      let model := model_data_fun voxels
      let one_pattern :=
        chunks_along sx == 1 && chunks_along sy == 1 && chunks_along sz == 1
      emit_loop
        (fun off =>
          match model_to_data model chisel_palette palette_mapping
              (off.1 % 256, off.2.1 % 256, off.2.2 % 256) with
          | .error e => .error e
          | .ok none => .ok none
          | .ok (some ds) =>
            .ok (some (data_to_pattern zlibC lz4C
              { chiseled_data := { data := ds.1, palette := chisel_palette },
                statistics := ds.2 })))
        one_pattern (chunk_offsets sx sy sz) 0
  else .error ()

/-! Decoders inverting the pattern codec layer by layer. These are the
specification-side constructions used to state the round-trip claim; each one
consumes a byte list from the front and returns the decoded value plus the
unconsumed tail (or fails). -/

/-- Consume an exact byte sequence. -/
def pExact : List Nat → List Nat → Option (List Nat)
  | [], s => some s
  | _ :: _, [] => none
  | p :: ps, c :: cs => if p = c then pExact ps cs else none

/-- Consume exactly `n` bytes. -/
def pTake : Nat → List Nat → Option (List Nat × List Nat)
  | 0, s => some ([], s)
  | _ + 1, [] => none
  | n + 1, c :: cs => (pTake n cs).map fun xr => (c :: xr.1, xr.2)

/-- Read a big-endian `k`-byte unsigned integer. -/
def pBE (k : Nat) (s : List Nat) : Option (Nat × List Nat) :=
  (pTake k s).map fun xr => (xr.1.foldl (fun a b => a * 256 + b) 0, xr.2)

/-- Read a TAG_String payload: `u16` length then that many bytes. -/
def pString (s : List Nat) : Option (List Nat × List Nat) :=
  (pBE 2 s).bind fun nr => pTake nr.1 nr.2

/-- Consume the header of a named tag with the given type and name. -/
def pNamed (ty : Nat) (name : List Nat) (s : List Nat) : Option (List Nat) :=
  pExact (ty :: (be16 name.length ++ name)) s

/-- Run a sub-decoder a counted number of times. -/
def parseCount (p : List Nat → Option (α × List Nat)) :
    Nat → List Nat → Option (List α × List Nat)
  | 0, s => some ([], s)
  | n + 1, s =>
    (p s).bind fun ar =>
      (parseCount p n ar.2).map fun lr => (ar.1 :: lr.1, lr.2)

/-- Decode one `PaletteEntry` compound payload. -/
def parsePaletteEntry (s : List Nat) : Option (PaletteEntry × List Nat) :=
  (pNamed 8 stateKey s).bind fun s1 =>
    (pString s1).bind fun str1 =>
      (pExact [0] str1.2).map fun s2 => (⟨str1.1⟩, s2)

/-- Decode one `BlockState` compound payload. -/
def parseBlockState (s : List Nat) : Option (BlockState × List Nat) :=
  (pNamed 10 blockInformationKey s).bind fun s1 =>
    (parsePaletteEntry s1).bind fun er =>
      (pNamed 3 countKey er.2).bind fun s2 =>
        (pBE 4 s2).bind fun nr =>
          (pExact [0] nr.2).map fun s3 => (⟨er.1, nr.1⟩, s3)

/-- Decode the `chiseledData` member: the byte array and the palette list,
returning them with the unconsumed tail. -/
def parseChiseled (s : List Nat) : Option (ChiselData × List Nat) := do
  let s1 ← pNamed 10 chiseledDataKey s
  let s2 ← pNamed 7 dataKey s1
  let nr ← pBE 4 s2
  let dr ← pTake nr.1 nr.2
  let s3 ← pNamed 9 paletteKey dr.2
  let s4 ← pExact [10] s3
  let pcr ← pBE 4 s4
  let palr ← parseCount parsePaletteEntry pcr.1 pcr.2
  let s5 ← pExact [0] palr.2
  pure ({ data := dr.1.map byteToI8, palette := palr.1 }, s5)

/-- Decode the `statistics` member, returning it with the unconsumed tail. -/
def parseStatistics (s : List Nat) : Option (Statistics × List Nat) := do
  let s1 ← pNamed 10 statisticsKey s
  let s2 ← pNamed 10 primaryStateKey s1
  let primr ← parsePaletteEntry s2
  let s3 ← pNamed 9 blockStatesKey primr.2
  let s4 ← pExact [10] s3
  let bcr ← pBE 4 s4
  let bsr ← parseCount parseBlockState bcr.1 bcr.2
  let s5 ← pExact [0] bsr.2
  pure ({ primary_state := primr.1, block_states := bsr.1 }, s5)

/-- Decode the inner NBT document back into the `Data` struct, requiring the
whole input to be consumed. -/
def parseData (s : List Nat) : Option Data := do
  let s1 ← pNamed 10 [] s
  let cdr ← parseChiseled s1
  let str ← parseStatistics cdr.2
  let s2 ← pExact [0] str.2
  if s2 = [] then pure { chiseled_data := cdr.1, statistics := str.1 }
  else none

/-- Decode the outer NBT container back to the compressed payload bytes,
requiring the whole input to be consumed. -/
def parseContainer (s : List Nat) : Option (List Nat) := do
  let s1 ← pNamed 10 [] s
  let s2 ← pNamed 3 versionKey s1
  let s3 ← pExact (be32 0) s2
  let s4 ← pNamed 10 dataKey s3
  let s5 ← pNamed 7 dataKey s4
  let nr ← pBE 4 s5
  let br ← pTake nr.1 nr.2
  let s6 ← pExact (nbtNamedTag 1 compressedKey [1] ++ [0, 0]) br.2
  if s6 = [] then pure br.1 else none

/-- Inverse of the base64 alphabet. -/
def b64inv (c : Nat) : Option Nat :=
  if 65 ≤ c ∧ c ≤ 90 then some (c - 65)
  else if 97 ≤ c ∧ c ≤ 122 then some (c - 97 + 26)
  else if 48 ≤ c ∧ c ≤ 57 then some (c - 48 + 52)
  else if c = 43 then some 62
  else if c = 47 then some 63
  else none

/-- Decode one non-final base64 quadruple (no padding allowed). -/
def b64dec4 (c0 c1 c2 c3 : Nat) : Option (List Nat) :=
  (b64inv c0).bind fun v0 =>
    (b64inv c1).bind fun v1 =>
      (b64inv c2).bind fun v2 =>
        (b64inv c3).map fun v3 =>
          let n := v0 * 262144 + v1 * 4096 + v2 * 64 + v3
          [n / 65536, n / 256 % 256, n % 256]

/-- Decode the final base64 quadruple, which may carry `=` padding. -/
def b64decFinal (c0 c1 c2 c3 : Nat) : Option (List Nat) :=
  if c2 = 61 then
    if c3 = 61 then
      (b64inv c0).bind fun v0 =>
        (b64inv c1).bind fun v1 =>
          if v1 % 16 = 0 then some [v0 * 4 + v1 / 16] else none
    else none
  else if c3 = 61 then
    (b64inv c0).bind fun v0 =>
      (b64inv c1).bind fun v1 =>
        (b64inv c2).bind fun v2 =>
          if v2 % 4 = 0 then some [v0 * 4 + v1 / 16, v1 % 16 * 16 + v2 / 4]
          else none
  else b64dec4 c0 c1 c2 c3

/-- Standard base64 decoding with padding, strict. -/
def base64decode : List Nat → Option (List Nat)
  | [] => some []
  | c0 :: c1 :: c2 :: c3 :: rest =>
    if rest.isEmpty then b64decFinal c0 c1 c2 c3
    else
      (b64dec4 c0 c1 c2 c3).bind fun bs =>
        (base64decode rest).map fun tl => bs ++ tl
  | _ => none

/-- Parse the pattern JSON `{"chiselData":"…","version":"1.0"}` back to the
base64 text between the quotes. -/
def jsonParse (s : List Nat) : Option (List Nat) :=
  (pExact jsonHead s).bind fun s1 =>
    let b64 := s1.takeWhile fun c => c ≠ 34
    let rest := s1.dropWhile fun c => c ≠ 34
    if rest = jsonTail then some b64 else none

/-- Full decoder of a pattern file: invert the eight pipeline layers of
`data_to_pattern` in reverse order, with the external decompressors passed as
the abstract byte transformers `zlibD` and `lz4D`. -/
def pattern_decode (zlibD lz4D : List Nat → List Nat) (buf : List Nat) :
    Option Data :=
  (base64decode (zlibD buf)).bind fun pattern_bytes =>
    (jsonParse pattern_bytes).bind fun nbt_base64 =>
      (base64decode nbt_base64).bind fun container_nbt =>
        (parseContainer container_nbt).bind fun compressed =>
          parseData (lz4D compressed)

/-! Round-trip lemmas for the primitive decoders. -/

theorem pExact_append (pat rest : List Nat) : pExact pat (pat ++ rest) = some rest := by
  induction pat with
  | nil => rfl
  | cons p ps ih => simp [pExact, ih]

theorem pExact_self (pat : List Nat) : pExact pat pat = some [] := by
  simpa using pExact_append pat []

theorem pExact_cons (c : Nat) (rest : List Nat) : pExact [c] (c :: rest) = some rest := by
  simp [pExact]

theorem pTake_append (xs rest : List Nat) :
    pTake xs.length (xs ++ rest) = some (xs, rest) := by
  induction xs with
  | nil => rfl
  | cons x xs ih => simp [pTake, ih]

theorem pBE_be16 (n : Nat) (h : n < 65536) (rest : List Nat) :
    pBE 2 (be16 n ++ rest) = some (n, rest) := by
  have ht : pTake 2 (be16 n ++ rest) = some (be16 n, rest) := pTake_append (be16 n) rest
  unfold pBE
  rw [ht]
  simp only [Option.map, be16, List.foldl, Option.some.injEq, Prod.mk.injEq]
  exact ⟨by omega, trivial⟩

theorem pBE_be32 (n : Nat) (h : n < 4294967296) (rest : List Nat) :
    pBE 4 (be32 n ++ rest) = some (n, rest) := by
  have ht : pTake 4 (be32 n ++ rest) = some (be32 n, rest) := pTake_append (be32 n) rest
  unfold pBE
  rw [ht]
  simp only [Option.map, be32, List.foldl, Option.some.injEq, Prod.mk.injEq]
  exact ⟨by omega, trivial⟩

theorem pString_nbtString (s rest : List Nat) (h : s.length < 65536) :
    pString (nbtString s ++ rest) = some (s, rest) := by
  simp only [pString, nbtString, List.append_assoc, pBE_be16 s.length h,
    Option.some_bind, pTake_append]

theorem pNamed_append (ty : Nat) (name payload rest : List Nat) :
    pNamed ty name (nbtNamedTag ty name payload ++ rest) = some (payload ++ rest) := by
  have : nbtNamedTag ty name payload ++ rest =
      (ty :: (be16 name.length ++ name)) ++ (payload ++ rest) := by
    simp [nbtNamedTag, nbtString, be16]
  rw [pNamed, this, pExact_append]

theorem pNamed_self (ty : Nat) (name payload : List Nat) :
    pNamed ty name (nbtNamedTag ty name payload) = some payload := by
  have := pNamed_append ty name payload []
  simpa using this

theorem parseCount_flatMap {α : Type} (p : List Nat → Option (α × List Nat))
    (enc : α → List Nat) (l : List α) (rest : List Nat)
    (h : ∀ x ∈ l, ∀ r, p (enc x ++ r) = some (x, r)) :
    parseCount p l.length (l.flatMap enc ++ rest) = some (l, rest) := by
  induction l with
  | nil => rfl
  | cons a l ih =>
    have ha := h a (by simp) (l.flatMap enc ++ rest)
    simp only [List.length_cons, List.flatMap_cons, List.append_assoc, parseCount,
      ha, Option.some_bind]
    rw [ih (fun x hx r => h x (by simp [hx]) r)]
    rfl

theorem parsePaletteEntry_append (e : PaletteEntry) (rest : List Nat)
    (h : e.state.length < 65536) :
    parsePaletteEntry (paletteEntryNbt e ++ rest) = some (e, rest) := by
  simp only [parsePaletteEntry, paletteEntryNbt, nbtCompoundPayload, List.append_assoc]
  rw [pNamed_append 8 stateKey (nbtString e.state) ([0] ++ rest)]
  simp only [Option.bind_eq_bind, Option.some_bind, List.append_assoc, pString_nbtString e.state _ h]
  simp [pExact]

theorem parseBlockState_append (bs : BlockState) (rest : List Nat)
    (h1 : bs.block_information.state.length < 65536) (h2 : bs.count < 4294967296) :
    parseBlockState (blockStateNbt bs ++ rest) = some (bs, rest) := by
  simp only [parseBlockState, blockStateNbt, nbtCompoundPayload, List.append_assoc]
  rw [pNamed_append 10 blockInformationKey]
  simp only [Option.bind_eq_bind, Option.some_bind, List.append_assoc]
  rw [parsePaletteEntry_append bs.block_information _ h1]
  simp only [Option.bind_eq_bind, Option.some_bind]
  rw [pNamed_append 3 countKey]
  simp only [Option.bind_eq_bind, Option.some_bind, List.append_assoc]
  rw [pBE_be32 bs.count h2]
  simp only [Option.bind_eq_bind, Option.some_bind]
  simp [pExact]

theorem map_byteToI8_i8ToByte (l : List Int) (h : ∀ v ∈ l, -128 ≤ v ∧ v < 128) :
    (l.map i8ToByte).map byteToI8 = l := by
  rw [List.map_map]
  have : ∀ v ∈ l, (byteToI8 ∘ i8ToByte) v = id v := fun v hv =>
    byteToI8_i8ToByte v (h v hv).1 (h v hv).2
  rw [List.map_congr_left this, List.map_id]

theorem parseChiseled_append (cd : ChiselData) (rest : List Nat)
    (hlen : cd.data.length < 4294967296) (hplen : cd.palette.length < 4294967296)
    (hstates : ∀ e ∈ cd.palette, e.state.length < 65536)
    (hvals : ∀ v ∈ cd.data, -128 ≤ v ∧ v < 128) :
    parseChiseled (chiseledNbt cd ++ rest) = some (cd, rest) := by
  have hbl : (cd.data.map i8ToByte).length = cd.data.length := by simp
  unfold parseChiseled chiseledNbt
  simp only [nbtCompoundPayload, List.append_assoc, List.cons_append]
  rw [pNamed_append 10 chiseledDataKey]
  simp only [Option.bind_eq_bind, Option.some_bind, List.append_assoc]
  rw [pNamed_append 7 dataKey]
  simp only [Option.bind_eq_bind, Option.some_bind, List.append_assoc]
  rw [pBE_be32 cd.data.length hlen]
  simp only [Option.bind_eq_bind, Option.some_bind]
  rw [← hbl, pTake_append]
  simp only [Option.bind_eq_bind, Option.some_bind]
  rw [pNamed_append 9 paletteKey]
  simp only [Option.bind_eq_bind, Option.some_bind, List.cons_append, List.append_assoc]
  rw [pExact_cons]
  simp only [Option.bind_eq_bind, Option.some_bind, List.nil_append]
  rw [pBE_be32 cd.palette.length hplen]
  simp only [Option.bind_eq_bind, Option.some_bind]
  rw [parseCount_flatMap parsePaletteEntry paletteEntryNbt cd.palette _
    (fun e he r => parsePaletteEntry_append e r (hstates e he))]
  simp only [Option.bind_eq_bind, Option.some_bind]
  rw [pExact_cons]
  simp only [Option.bind_eq_bind, Option.some_bind, Option.pure_def, Option.some.injEq,
    Prod.mk.injEq]
  exact ⟨by rw [map_byteToI8_i8ToByte cd.data hvals], trivial⟩

theorem parseStatistics_append (st : Statistics) (rest : List Nat)
    (hprim : st.primary_state.state.length < 65536)
    (hblen : st.block_states.length < 4294967296)
    (hbs : ∀ b ∈ st.block_states,
      b.block_information.state.length < 65536 ∧ b.count < 4294967296) :
    parseStatistics (statisticsNbt st ++ rest) = some (st, rest) := by
  unfold parseStatistics statisticsNbt
  simp only [nbtCompoundPayload, List.append_assoc, List.cons_append]
  rw [pNamed_append 10 statisticsKey]
  simp only [Option.bind_eq_bind, Option.some_bind, List.append_assoc]
  rw [pNamed_append 10 primaryStateKey]
  simp only [Option.bind_eq_bind, Option.some_bind, List.append_assoc]
  rw [parsePaletteEntry_append st.primary_state _ hprim]
  simp only [Option.bind_eq_bind, Option.some_bind]
  rw [pNamed_append 9 blockStatesKey]
  simp only [Option.bind_eq_bind, Option.some_bind, List.cons_append, List.append_assoc]
  rw [pExact_cons]
  simp only [Option.bind_eq_bind, Option.some_bind, List.nil_append]
  rw [pBE_be32 st.block_states.length hblen]
  simp only [Option.bind_eq_bind, Option.some_bind]
  rw [parseCount_flatMap parseBlockState blockStateNbt st.block_states _
    (fun b hb r => parseBlockState_append b r (hbs b hb).1 (hbs b hb).2)]
  simp only [Option.bind_eq_bind, Option.some_bind]
  rw [pExact_cons]
  simp only [Option.bind_eq_bind, Option.some_bind, Option.pure_def]

theorem parseData_dataNbt (doc : Data)
    (hlen : doc.chiseled_data.data.length < 4294967296)
    (hplen : doc.chiseled_data.palette.length < 4294967296)
    (hstates : ∀ e ∈ doc.chiseled_data.palette, e.state.length < 65536)
    (hvals : ∀ v ∈ doc.chiseled_data.data, -128 ≤ v ∧ v < 128)
    (hprim : doc.statistics.primary_state.state.length < 65536)
    (hblen : doc.statistics.block_states.length < 4294967296)
    (hbs : ∀ b ∈ doc.statistics.block_states,
      b.block_information.state.length < 65536 ∧ b.count < 4294967296) :
    parseData (dataNbt doc) = some doc := by
  unfold parseData dataNbt
  simp only [nbtCompoundPayload]
  rw [pNamed_self 10 []]
  simp only [Option.bind_eq_bind, Option.some_bind, List.append_assoc]
  rw [parseChiseled_append doc.chiseled_data _ hlen hplen hstates hvals]
  simp only [Option.bind_eq_bind, Option.some_bind]
  rw [parseStatistics_append doc.statistics _ hprim hblen hbs]
  simp only [Option.bind_eq_bind, Option.some_bind]
  rw [pExact_self]
  simp only [Option.bind_eq_bind, Option.some_bind, Option.pure_def, if_pos rfl, if_true]

theorem parseContainer_containerNbt (compressed : List Nat)
    (h : compressed.length < 4294967296) :
    parseContainer (containerNbt compressed) = some compressed := by
  unfold parseContainer containerNbt
  simp only [nbtCompoundPayload]
  rw [pNamed_self 10 []]
  simp only [Option.bind_eq_bind, Option.some_bind, List.append_assoc]
  rw [pNamed_append 3 versionKey]
  simp only [Option.bind_eq_bind, Option.some_bind, List.append_assoc]
  rw [pExact_append]
  simp only [Option.bind_eq_bind, Option.some_bind]
  rw [pNamed_append 10 dataKey]
  simp only [Option.bind_eq_bind, Option.some_bind, List.append_assoc]
  rw [pNamed_append 7 dataKey]
  simp only [Option.bind_eq_bind, Option.some_bind, List.append_assoc]
  rw [pBE_be32 compressed.length h]
  simp only [Option.bind_eq_bind, Option.some_bind]
  rw [pTake_append]
  simp only [Option.bind_eq_bind, Option.some_bind]
  rw [show nbtNamedTag 1 compressedKey [1] ++ ([0] ++ [0]) =
    nbtNamedTag 1 compressedKey [1] ++ [0, 0] from rfl]
  rw [pExact_self]
  simp only [Option.bind_eq_bind, Option.some_bind, Option.pure_def, if_pos rfl, if_true]

/-! Base64 round-trip. -/

theorem b64inv_b64char : ∀ n < 64, b64inv (b64char n) = some n := by decide

theorem b64char_ne_61 (n : Nat) : b64char n ≠ 61 := by
  unfold b64char
  split_ifs <;> omega

theorem b64char_ne_34 (n : Nat) : b64char n ≠ 34 := by
  unfold b64char
  split_ifs <;> omega

theorem base64encode_nil_iff (bytes : List Nat) :
    base64encode bytes = [] ↔ bytes = [] := by
  constructor
  · intro h
    match bytes with
    | [] => rfl
    | [b0] => simp [base64encode] at h
    | [b0, b1] => simp [base64encode] at h
    | b0 :: b1 :: b2 :: rest => simp [base64encode] at h
  · intro h
    rw [h]
    rfl

theorem b64dec4_encode (b0 b1 b2 : Nat) (h0 : b0 < 256) (h1 : b1 < 256)
    (h2 : b2 < 256) :
    b64dec4 (b64char ((b0 * 65536 + b1 * 256 + b2) / 262144))
      (b64char ((b0 * 65536 + b1 * 256 + b2) / 4096 % 64))
      (b64char ((b0 * 65536 + b1 * 256 + b2) / 64 % 64))
      (b64char ((b0 * 65536 + b1 * 256 + b2) % 64)) = some [b0, b1, b2] := by
  unfold b64dec4
  rw [b64inv_b64char _ (by omega), b64inv_b64char _ (by omega),
    b64inv_b64char _ (by omega), b64inv_b64char _ (by omega)]
  simp only [Option.bind_eq_bind, Option.some_bind, Option.map_some']
  simp only [Option.some.injEq, List.cons.injEq, and_true]
  refine ⟨by omega, by omega, by omega⟩

theorem base64decode_encode (bytes : List Nat) (h : ∀ b ∈ bytes, b < 256) :
    base64decode (base64encode bytes) = some bytes := by
  induction bytes using base64encode.induct with
  | case1 b0 b1 b2 rest ih =>
    have hb0 : b0 < 256 := h b0 (by simp)
    have hb1 : b1 < 256 := h b1 (by simp)
    have hb2 : b2 < 256 := h b2 (by simp)
    have hrec := ih (fun b hb => h b (by simp [hb]))
    rw [base64encode]
    rw [base64decode]
    by_cases hr : rest = []
    · subst hr
      simp only [base64encode, List.isEmpty_nil, if_true]
      rw [b64decFinal, if_neg (b64char_ne_61 _), if_neg (b64char_ne_61 _)]
      exact b64dec4_encode b0 b1 b2 hb0 hb1 hb2
    · have hne : base64encode rest ≠ [] := fun hc =>
        hr ((base64encode_nil_iff rest).mp hc)
      rw [if_neg (by simpa [List.isEmpty_iff] using hne)]
      rw [b64dec4_encode b0 b1 b2 hb0 hb1 hb2]
      simp only [Option.bind_eq_bind, Option.some_bind, hrec, Option.map_some']
      rfl
  | case2 b0 b1 =>
    have hb0 : b0 < 256 := h b0 (by simp)
    have hb1 : b1 < 256 := h b1 (by simp)
    rw [base64encode, base64decode]
    simp only [List.isEmpty_nil, if_true]
    rw [b64decFinal, if_neg (b64char_ne_61 _), if_pos rfl]
    rw [b64inv_b64char _ (by omega), b64inv_b64char _ (by omega),
      b64inv_b64char _ (by omega)]
    simp only [Option.bind_eq_bind, Option.some_bind]
    have hc : (b0 * 65536 + b1 * 256) / 64 % 64 % 4 = 0 := by omega
    rw [if_pos hc]
    simp only [Option.some.injEq, List.cons.injEq, and_true]
    refine ⟨by omega, by omega⟩
  | case3 b0 =>
    have hb0 : b0 < 256 := h b0 (by simp)
    rw [base64encode, base64decode]
    simp only [List.isEmpty_nil, if_true]
    rw [b64decFinal, if_pos rfl, if_pos rfl]
    rw [b64inv_b64char _ (by omega), b64inv_b64char _ (by omega)]
    simp only [Option.bind_eq_bind, Option.some_bind]
    have hc : b0 * 65536 / 4096 % 64 % 16 = 0 := by omega
    rw [if_pos hc]
    simp only [Option.some.injEq, List.cons.injEq, and_true]
    omega
  | case4 => rfl

theorem mem_base64encode_ne_34 (bytes : List Nat) :
    ∀ c ∈ base64encode bytes, c ≠ 34 := by
  induction bytes using base64encode.induct with
  | case1 b0 b1 b2 rest ih =>
    rw [base64encode]
    intro c hc
    simp only [List.mem_cons] at hc
    rcases hc with rfl | rfl | rfl | rfl | hc
    · exact b64char_ne_34 _
    · exact b64char_ne_34 _
    · exact b64char_ne_34 _
    · exact b64char_ne_34 _
    · exact ih c hc
  | case2 b0 b1 =>
    rw [base64encode]
    intro c hc
    simp only [List.mem_cons, List.not_mem_nil, or_false] at hc
    rcases hc with rfl | rfl | rfl | rfl
    · exact b64char_ne_34 _
    · exact b64char_ne_34 _
    · exact b64char_ne_34 _
    · omega
  | case3 b0 =>
    rw [base64encode]
    intro c hc
    simp only [List.mem_cons, List.not_mem_nil, or_false] at hc
    rcases hc with rfl | rfl | rfl | rfl
    · exact b64char_ne_34 _
    · exact b64char_ne_34 _
    · omega
    · omega
  | case4 => intro c hc; cases hc

/-! JSON layer round-trip and byte-range facts. -/

theorem b64char_lt_256 (n : Nat) : b64char n < 256 := by
  unfold b64char
  split_ifs <;> omega

theorem mem_base64encode_lt_256 (bytes : List Nat) :
    ∀ c ∈ base64encode bytes, c < 256 := by
  induction bytes using base64encode.induct with
  | case1 b0 b1 b2 rest ih =>
    rw [base64encode]
    intro c hc
    simp only [List.mem_cons] at hc
    rcases hc with rfl | rfl | rfl | rfl | hc
    · exact b64char_lt_256 _
    · exact b64char_lt_256 _
    · exact b64char_lt_256 _
    · exact b64char_lt_256 _
    · exact ih c hc
  | case2 b0 b1 =>
    rw [base64encode]
    intro c hc
    simp only [List.mem_cons, List.not_mem_nil, or_false] at hc
    rcases hc with rfl | rfl | rfl | rfl
    · exact b64char_lt_256 _
    · exact b64char_lt_256 _
    · exact b64char_lt_256 _
    · omega
  | case3 b0 =>
    rw [base64encode]
    intro c hc
    simp only [List.mem_cons, List.not_mem_nil, or_false] at hc
    rcases hc with rfl | rfl | rfl | rfl
    · exact b64char_lt_256 _
    · exact b64char_lt_256 _
    · omega
    · omega
  | case4 => intro c hc; cases hc

theorem takeWhile_append_all (p : Nat → Bool) (xs ys : List Nat)
    (h : ∀ x ∈ xs, p x = true) :
    (xs ++ ys).takeWhile p = xs ++ ys.takeWhile p := by
  induction xs with
  | nil => rfl
  | cons x xs ih =>
    simp only [List.cons_append, List.takeWhile_cons, h x (by simp), if_true,
      ih (fun a ha => h a (by simp [ha]))]

theorem dropWhile_append_all (p : Nat → Bool) (xs ys : List Nat)
    (h : ∀ x ∈ xs, p x = true) :
    (xs ++ ys).dropWhile p = ys.dropWhile p := by
  induction xs with
  | nil => rfl
  | cons x xs ih =>
    simp only [List.cons_append, List.dropWhile_cons, h x (by simp), if_true,
      ih (fun a ha => h a (by simp [ha]))]

theorem jsonParse_patternJson (b64 : List Nat) (h : ∀ c ∈ b64, c ≠ 34) :
    jsonParse (patternJson b64) = some b64 := by
  unfold jsonParse patternJson
  rw [List.append_assoc, pExact_append]
  simp only [Option.bind_eq_bind, Option.some_bind]
  have hp : ∀ x ∈ b64, (fun c => decide (c ≠ 34)) x = true := by
    intro x hx
    simpa using h x hx
  rw [takeWhile_append_all _ b64 jsonTail hp, dropWhile_append_all _ b64 jsonTail hp]
  rw [show jsonTail.takeWhile (fun c => decide (c ≠ 34)) = [] from rfl]
  rw [show jsonTail.dropWhile (fun c => decide (c ≠ 34)) = jsonTail from rfl]
  simp

theorem mem_be32_lt_256 (n : Nat) : ∀ v ∈ be32 n, v < 256 := by
  intro v hv
  simp only [be32, List.mem_cons, List.not_mem_nil, or_false] at hv
  rcases hv with rfl | rfl | rfl | rfl <;> omega

theorem containerNbt_eq (compressed : List Nat) :
    containerNbt compressed =
      (([10, 0, 0, 3, 0, 7, 118, 101, 114, 115, 105, 111, 110, 0, 0, 0, 0,
          10, 0, 4, 100, 97, 116, 97, 7, 0, 4, 100, 97, 116, 97] ++
        be32 compressed.length) ++ compressed) ++
      [1, 0, 10, 99, 111, 109, 112, 114, 101, 115, 115, 101, 100, 1, 0, 0] := by
  simp [containerNbt, nbtNamedTag, nbtString, nbtCompoundPayload, be16, be32,
    versionKey, dataKey, compressedKey]

theorem mem_containerNbt_lt_256 (compressed : List Nat)
    (h : ∀ c ∈ compressed, c < 256) :
    ∀ v ∈ containerNbt compressed, v < 256 := by
  intro v hv
  rw [containerNbt_eq] at hv
  rcases List.mem_append.mp hv with h1 | h1
  · rcases List.mem_append.mp h1 with h2 | h2
    · rcases List.mem_append.mp h2 with h3 | h3
      · exact (by decide :
          ∀ x ∈ [10, 0, 0, 3, 0, 7, 118, 101, 114, 115, 105, 111, 110, 0, 0, 0, 0,
            10, 0, 4, 100, 97, 116, 97, 7, 0, 4, 100, 97, 116, 97], x < 256) v h3
      · exact mem_be32_lt_256 compressed.length v h3
    · exact h v h2
  · exact (by decide :
      ∀ x ∈ [1, 0, 10, 99, 111, 109, 112, 114, 101, 115, 115, 101, 100, 1, 0, 0],
        x < 256) v h1

theorem mem_patternJson_lt_256 (b64 : List Nat) (h : ∀ c ∈ b64, c < 256) :
    ∀ v ∈ patternJson b64, v < 256 := by
  intro v hv
  rcases List.mem_append.mp hv with h1 | h1
  · rcases List.mem_append.mp h1 with h2 | h2
    · exact (by decide : ∀ x ∈ jsonHead, x < 256) v h2
    · exact h v h2
  · exact (by decide : ∀ x ∈ jsonTail, x < 256) v h1

/-- Claim C1: for every encoded chunk document, decoding the byte buffer
produced by `data_to_pattern` by inverting the eight pipeline layers in
reverse order (zlib-inflate, base64-decode, JSON-parse, base64-decode,
tag-binary-decode of the outer container, lz4-frame-decompress,
tag-binary-decode) reproduces exactly the structured document built in step
one: the codec is a lossless round-trip. The two external compression layers
enter as abstract encoders with their inverses (their losslessness, and the
zlib level-6 choice, are properties of the external libraries); the document
bounds are those every `EncodedChunk` of the program satisfies. -/
theorem pattern_roundtrip (zlibC zlibD lz4C lz4D : List Nat → List Nat)
    (doc : Data)
    (hzlib : ∀ b, zlibD (zlibC b) = b)
    (hlz4 : ∀ b, lz4D (lz4C b) = b)
    (hlz4bytes : ∀ v ∈ lz4C (dataNbt doc), v < 256)
    (hclen : (lz4C (dataNbt doc)).length < 4294967296)
    (hlen : doc.chiseled_data.data.length < 4294967296)
    (hplen : doc.chiseled_data.palette.length < 4294967296)
    (hstates : ∀ e ∈ doc.chiseled_data.palette, e.state.length < 65536)
    (hvals : ∀ v ∈ doc.chiseled_data.data, -128 ≤ v ∧ v < 128)
    (hprim : doc.statistics.primary_state.state.length < 65536)
    (hblen : doc.statistics.block_states.length < 4294967296)
    (hbs : ∀ b ∈ doc.statistics.block_states,
      b.block_information.state.length < 65536 ∧ b.count < 4294967296) :
    pattern_decode zlibD lz4D (data_to_pattern zlibC lz4C doc) = some doc := by
  unfold data_to_pattern pattern_decode
  rw [hzlib]
  rw [base64decode_encode _ (mem_patternJson_lt_256 _ (mem_base64encode_lt_256 _))]
  simp only [Option.bind_eq_bind, Option.some_bind]
  rw [jsonParse_patternJson _ (mem_base64encode_ne_34 _)]
  simp only [Option.bind_eq_bind, Option.some_bind]
  rw [base64decode_encode _ (mem_containerNbt_lt_256 _ hlz4bytes)]
  simp only [Option.bind_eq_bind, Option.some_bind]
  rw [parseContainer_containerNbt _ hclen]
  simp only [Option.bind_eq_bind, Option.some_bind]
  rw [hlz4]
  exact parseData_dataNbt doc hlen hplen hstates hvals hprim hblen hbs

/-! Arithmetic facts about the coordinate maps, and a characterisation of
`model_to_data` runs that do not panic. -/

theorem position_from_index_bounds (i : Nat) (hi : i < 4096) :
    (position_from_index i).1 < 16 ∧ (position_from_index i).2.1 < 16 ∧
      (position_from_index i).2.2 < 16 := by
  unfold position_from_index BLOCK_SIDE
  refine ⟨?_, ?_, ?_⟩ <;> (simp only []; omega)

theorem consulted_index_lt_of_le (o0 o1 o2 i : Nat) (hi : i < 4096)
    (h0 : o0 ≤ 224) (h1 : o1 ≤ 224) (h2 : o2 ≤ 224) :
    consulted_index (o0, o1, o2) i <
      VOXEL_MAX_SIDE * VOXEL_MAX_SIDE * VOXEL_MAX_SIDE := by
  unfold consulted_index index_from_position position_from_index
  unfold VOXEL_MAX_SIDE BLOCK_SIDE
  simp only []
  omega

theorem flatMap_const_length {α β : Type} (f : α → List β) (m : Nat)
    (h : ∀ a, (f a).length = m) (l : List α) :
    (l.flatMap f).length = l.length * m := by
  induction l with
  | nil => simp
  | cons a l ih => simp [List.flatMap_cons, ih, h a]; ring

theorem natToBitsLE_length (w v : Nat) : (natToBitsLE w v).length = w := by
  simp [natToBitsLE]

theorem cells_all_iff (model : Nat → Option Nat) (offset : Nat × Nat × Nat) :
    (((List.range (BLOCK_SIDE * BLOCK_SIDE * BLOCK_SIDE)).map
        (fun i => model (consulted_index offset i))).all fun c => c.isNone) = true ↔
      ∀ i < 4096, model (consulted_index offset i) = none := by
  rw [List.all_eq_true]
  constructor
  · intro h i hi
    have := h (model (consulted_index offset i))
      (List.mem_map.mpr ⟨i, List.mem_range.mpr hi, rfl⟩)
    simpa [Option.isNone_iff_eq_none] using this
  · intro h c hc
    obtain ⟨i, hi, rfl⟩ := List.mem_map.mp hc
    simpa [Option.isNone_iff_eq_none] using h i (List.mem_range.mp hi)

theorem model_to_data_char (model : Nat → Option Nat)
    (palette : List PaletteEntry) (pm : Nat → Option Nat)
    (offset : Nat × Nat × Nat)
    (hp1 : palette.length ≠ 0) (hp2 : palette.length ≤ 256)
    (hbound : ∀ i < 4096, consulted_index offset i <
      VOXEL_MAX_SIDE * VOXEL_MAX_SIDE * VOXEL_MAX_SIDE)
    (hmap : ∀ i < 4096, ∀ c, model (consulted_index offset i) = some c →
      ∃ m, pm c = some m ∧ m < palette.length) :
    ∃ r, model_to_data model palette pm offset = .ok r ∧
      (r = none ↔ ∀ i < 4096, model (consulted_index offset i) = none) := by
  have hp2w : palette.length ≤ 2 ^ entry_width palette.length := by
    rw [entry_width_eq_clog]
    exact (Nat.le_pow_iff_clog_le (by norm_num)).mpr le_rfl
  have hw8 : entry_width palette.length ≤ 8 := by
    rw [entry_width_eq_clog]
    exact (Nat.le_pow_iff_clog_le (by norm_num)).mp (by simpa using hp2)
  have hcells : mapMExcept (cellRaw model offset)
      (List.range (BLOCK_SIDE * BLOCK_SIDE * BLOCK_SIDE)) =
      .ok ((List.range (BLOCK_SIDE * BLOCK_SIDE * BLOCK_SIDE)).map
        (fun i => model (consulted_index offset i))) := by
    apply mapMExcept_map
    intro i hi
    have hi4 : i < 4096 := by
      have := List.mem_range.mp hi
      simp only [BLOCK_SIDE] at this
      omega
    unfold cellRaw
    rw [if_pos (hbound i hi4)]
  have hvals : mapMExcept (cellToVal palette.length pm)
      ((List.range (BLOCK_SIDE * BLOCK_SIDE * BLOCK_SIDE)).map
        (fun i => model (consulted_index offset i))) =
      .ok (((List.range (BLOCK_SIDE * BLOCK_SIDE * BLOCK_SIDE)).map
        (fun i => model (consulted_index offset i))).map
          (fun c => match c with
            | none => (palette.length - 1) % 256
            | some colr => (pm colr).getD 0)) := by
    apply mapMExcept_map
    intro c hc
    obtain ⟨i, hi, rfl⟩ := List.mem_map.mp hc
    have hi4 : i < 4096 := by
      have := List.mem_range.mp hi
      simp only [BLOCK_SIDE] at this
      omega
    match hcell : model (consulted_index offset i) with
    | none => rfl
    | some colr =>
      obtain ⟨m, hm, _⟩ := hmap i hi4 colr hcell
      simp [cellToVal, hm]
  have hcheck : ((((List.range (BLOCK_SIDE * BLOCK_SIDE * BLOCK_SIDE)).map
      (fun i => model (consulted_index offset i))).map
        (fun c => match c with
          | none => (palette.length - 1) % 256
          | some colr => (pm colr).getD 0)).all
        (fun v => decide (v < 2 ^ entry_width palette.length) &&
          decide (v < palette.length)) &&
        decide (entry_width palette.length ≤ 8)) = true := by
    rw [Bool.and_eq_true, List.all_eq_true]
    refine ⟨?_, by simpa using hw8⟩
    intro v hv
    obtain ⟨c, hc, rfl⟩ := List.mem_map.mp hv
    obtain ⟨i, hi, rfl⟩ := List.mem_map.mp hc
    have hi4 : i < 4096 := by
      have := List.mem_range.mp hi
      simp only [BLOCK_SIDE] at this
      omega
    match hcell : model (consulted_index offset i) with
    | none =>
      have hair : (palette.length - 1) % 256 = palette.length - 1 :=
        Nat.mod_eq_of_lt (by omega)
      simp only [hair, Bool.and_eq_true, decide_eq_true_eq]
      exact ⟨by omega, by omega⟩
    | some colr =>
      obtain ⟨m, hm, hmlt⟩ := hmap i hi4 colr hcell
      simp only [hm, Option.getD_some, Bool.and_eq_true, decide_eq_true_eq]
      exact ⟨by omega, hmlt⟩
  unfold model_to_data
  rw [if_neg hp1]
  rw [hcells]
  simp only []
  rw [hvals]
  simp only []
  rw [if_pos hcheck]
  by_cases hall : (((List.range (BLOCK_SIDE * BLOCK_SIDE * BLOCK_SIDE)).map
      (fun i => model (consulted_index offset i))).all fun c => c.isNone) = true
  · rw [if_pos hall]
    exact ⟨none, rfl, iff_of_true rfl ((cells_all_iff model offset).mp hall)⟩
  · rw [if_neg hall]
    refine ⟨_, rfl, ?_⟩
    simp only [reduceCtorEq, false_iff]
    intro hcontra
    exact hall ((cells_all_iff model offset).mpr hcontra)

/-! Facts about the chunk emission loop and the chunk enumeration. -/

/-- Whether a chunk step emits a pattern (as opposed to being skipped as all
air or panicking). -/
def isEmit : Except Unit (Option (List Nat)) → Bool
  | .ok (some _) => true
  | _ => false

theorem emit_loop_length (step : Nat × Nat × Nat → Except Unit (Option (List Nat)))
    (b : Bool) (os : List (Nat × Nat × Nat)) (idx : Nat)
    (files : List (Option Nat × List Nat))
    (h : emit_loop step b os idx = .ok files) :
    files.length = os.countP fun o => isEmit (step o) := by
  induction os generalizing idx files with
  | nil => cases h; rfl
  | cons o os ih =>
    rw [emit_loop] at h
    match hstep : step o with
    | .error e => rw [hstep] at h; cases h
    | .ok none =>
      rw [hstep] at h
      rw [List.countP_cons, ih idx files h]
      simp [isEmit, hstep]
    | .ok (some pat) =>
      rw [hstep] at h
      match hrec : emit_loop step b os (idx + 1) with
      | .error e => rw [hrec] at h; cases h
      | .ok files' =>
        rw [hrec] at h
        cases h
        rw [List.countP_cons]
        simp [isEmit, hstep, ih (idx + 1) files' hrec]

theorem emit_loop_suffixes (step : Nat × Nat × Nat → Except Unit (Option (List Nat)))
    (b : Bool) (os : List (Nat × Nat × Nat)) (idx : Nat)
    (files : List (Option Nat × List Nat))
    (h : emit_loop step b os idx = .ok files) :
    if b then ∀ f ∈ files, f.1 = none
    else files.map Prod.fst = (List.range' idx files.length).map some := by
  induction os generalizing idx files with
  | nil =>
    cases h
    cases b <;> simp
  | cons o os ih =>
    rw [emit_loop] at h
    match hstep : step o with
    | .error e => rw [hstep] at h; cases h
    | .ok none => rw [hstep] at h; exact ih idx files h
    | .ok (some pat) =>
      rw [hstep] at h
      match hrec : emit_loop step b os (idx + 1) with
      | .error e => rw [hrec] at h; cases h
      | .ok files' =>
        rw [hrec] at h
        cases h
        have hthis := ih (idx + 1) files' hrec
        cases b with
        | true =>
          simp only [if_pos rfl] at hthis ⊢
          intro f hf
          rcases List.mem_cons.mp hf with rfl | hf
          · simp
          · exact hthis f hf
        | false =>
          simp only [if_neg Bool.false_ne_true] at hthis ⊢
          rw [List.length_cons, List.range'_succ]
          simp [hthis]

theorem emit_loop_mem (step : Nat × Nat × Nat → Except Unit (Option (List Nat)))
    (b : Bool) (os : List (Nat × Nat × Nat)) (idx : Nat)
    (files : List (Option Nat × List Nat))
    (h : emit_loop step b os idx = .ok files) :
    ∀ f ∈ files, ∃ o ∈ os, step o = .ok (some f.2) := by
  induction os generalizing idx files with
  | nil => cases h; intro f hf; cases hf
  | cons o os ih =>
    rw [emit_loop] at h
    match hstep : step o with
    | .error e => rw [hstep] at h; cases h
    | .ok none =>
      rw [hstep] at h
      intro f hf
      obtain ⟨o', ho', hs⟩ := ih idx files h f hf
      exact ⟨o', by simp [ho'], hs⟩
    | .ok (some pat) =>
      rw [hstep] at h
      match hrec : emit_loop step b os (idx + 1) with
      | .error e => rw [hrec] at h; cases h
      | .ok files' =>
        rw [hrec] at h
        cases h
        intro f hf
        rcases List.mem_cons.mp hf with rfl | hf
        · exact ⟨o, by simp, hstep⟩
        · obtain ⟨o', ho', hs⟩ := ih (idx + 1) files' hrec f hf
          exact ⟨o', by simp [ho'], hs⟩

theorem range_flatMap_getElem {α : Type} (f : Nat → List α) (m n j : Nat)
    (s : Nat) (hm : ∀ x, (f x).length = m) (hj : j < n * m) :
    ((List.range' s n).flatMap f)[j]? = (f (s + j / m))[j % m]? := by
  induction n generalizing s j with
  | zero => omega
  | succ n ih =>
    rw [List.range'_succ, List.flatMap_cons]
    have hm0 : 0 < m := by
      rcases Nat.eq_zero_or_pos m with rfl | h
      · simp at hj
      · exact h
    have hsm : (n + 1) * m = n * m + m := by ring
    by_cases hjm : j < m
    · rw [List.getElem?_append_left (by rw [hm s]; exact hjm)]
      rw [Nat.div_eq_of_lt hjm, Nat.mod_eq_of_lt hjm, Nat.add_zero]
    · have hj' : j - m < n * m := by omega
      rw [List.getElem?_append_right (by rw [hm s]; omega)]
      rw [hm s]
      have hdiv : j / m = (j - m) / m + 1 := Nat.div_eq_sub_div hm0 (by omega)
      have hmod : j % m = (j - m) % m := Nat.mod_eq_sub_mod (by omega)
      rw [hdiv, hmod, ih (j - m) (s + 1) hj']
      congr 2
      omega

theorem chunk_offsets_length (sx sy sz : Nat) :
    (chunk_offsets sx sy sz).length =
      chunks_along sx * chunks_along sy * chunks_along sz := by
  unfold chunk_offsets
  rw [flatMap_const_length _ (chunks_along sy * chunks_along sz)]
  · simp [Nat.mul_assoc]
  · intro x
    rw [flatMap_const_length _ (chunks_along sz)]
    · simp
    · intro y
      simp

/-! The sort-then-take-first structure of `closest_block`. -/

theorem closest_block_min {γ : Type} (d : γ → γ → ℚ) (mapping : List (γ × List Nat))
    (color : γ) (hne : mapping ≠ []) :
    ∃ e ∈ mapping, closest_block d mapping color = some e.2 ∧
      ∀ q ∈ mapping, d e.1 color ≤ d q.1 color := by
  have hdef : closest_block d mapping color =
      ((mapping.map fun bc => (d bc.1 color, bc.2)).mergeSort
        (fun l r => decide (l.1 ≤ r.1))).head?.map Prod.snd := rfl
  have htrans : ∀ a b c : ℚ × List Nat,
      (fun l r : ℚ × List Nat => decide (l.1 ≤ r.1)) a b = true →
      (fun l r : ℚ × List Nat => decide (l.1 ≤ r.1)) b c = true →
      (fun l r : ℚ × List Nat => decide (l.1 ≤ r.1)) a c = true := by
    intro a b c hab hbc
    simp only [decide_eq_true_eq] at hab hbc ⊢
    exact le_trans hab hbc
  have htotal : ∀ a b : ℚ × List Nat,
      ((fun l r : ℚ × List Nat => decide (l.1 ≤ r.1)) a b ||
        (fun l r : ℚ × List Nat => decide (l.1 ≤ r.1)) b a) = true := by
    intro a b
    simp only [Bool.or_eq_true, decide_eq_true_eq]
    exact le_total a.1 b.1
  have hperm := List.mergeSort_perm (mapping.map fun bc => (d bc.1 color, bc.2))
    (fun l r => decide (l.1 ≤ r.1))
  have hsorted := List.sorted_mergeSort htrans htotal
    (mapping.map fun bc => (d bc.1 color, bc.2))
  cases hms : (mapping.map fun bc => (d bc.1 color, bc.2)).mergeSort
      (fun l r => decide (l.1 ≤ r.1)) with
  | nil =>
    exfalso
    have := hperm.length_eq
    rw [hms] at this
    simp only [List.length_nil, List.length_map] at this
    exact hne (List.length_eq_zero.mp this.symm)
  | cons hd tl =>
    have hhd : hd ∈ (mapping.map fun bc => (d bc.1 color, bc.2)) := by
      rw [← hperm.mem_iff, hms]
      simp
    obtain ⟨bc, hbc, hbceq⟩ := List.mem_map.mp hhd
    refine ⟨bc, hbc, ?_, ?_⟩
    · rw [hdef, hms]
      simp [← hbceq]
    · intro q hq
      have hqd : (d q.1 color, q.2) ∈ (mapping.map fun bc => (d bc.1 color, bc.2)) :=
        List.mem_map.mpr ⟨q, hq, rfl⟩
      rw [← hperm.mem_iff, hms] at hqd
      rcases List.mem_cons.mp hqd with heq | htl
    -- the minimum can be the head itself or be dominated by the head
      · have : d q.1 color = hd.1 := by rw [← heq]
        rw [this, ← hbceq]
      · rw [hms] at hsorted
        have := (List.pairwise_cons.mp hsorted).1 _ htl
        simp only [decide_eq_true_eq] at this
        have h1 : hd.1 ≤ d q.1 color := this
        rw [← hbceq] at h1
        exact h1

/-! Facts about the palette construction and the chunk enumeration of
`create_patterns`. -/

theorem chisel_palette_of_ok {γ : Type} (d : γ → γ → ℚ)
    (block_palette : List (γ × List Nat)) (vox_palette : List γ)
    (order : List Nat) (pal : List PaletteEntry)
    (h : chisel_palette_of d block_palette vox_palette order = .ok pal) :
    pal.length = order.length + 1 ∧ pal.getLast? = some airEntry := by
  unfold chisel_palette_of at h
  cases hm : mapMExcept (fun c =>
      match vox_palette[c]? with
      | none => .error ()
      | some col =>
        match closest_block d block_palette col with
        | none => .error ()
        | some name => .ok (⟨nameState name⟩ : PaletteEntry)) order with
  | error e => rw [hm] at h; cases h
  | ok entries =>
    rw [hm] at h
    cases h
    refine ⟨?_, ?_⟩
    · simp [mapMExcept_ok_length _ _ _ hm]
    · simp [List.getLast?_concat]

theorem order_length_eq_dedup_length (order : List Nat) (voxels : List Voxel)
    (hnodup : order.Nodup)
    (hmem : ∀ c, c ∈ order ↔ ∃ v ∈ voxels, v.i = c) :
    order.length = ((voxels.map Voxel.i).dedup).length := by
  have hperm : order.Perm (voxels.map Voxel.i).dedup := by
    rw [List.perm_ext_iff_of_nodup hnodup (List.nodup_dedup _)]
    intro a
    rw [List.mem_dedup, List.mem_map, hmem a]
  exact hperm.length_eq

theorem create_patterns_eq {γ : Type} (zlibC lz4C : List Nat → List Nat)
    (d : γ → γ → ℚ) (block_palette : List (γ × List Nat))
    (vox_palette : List γ) (order : List Nat) (voxels : List Voxel)
    (sx sy sz : Nat) (pal : List PaletteEntry)
    (hall : (voxels.all fun v =>
      decide (index_from_position v.x v.y v.z <
        VOXEL_MAX_SIDE * VOXEL_MAX_SIDE * VOXEL_MAX_SIDE)) = true)
    (hpal : chisel_palette_of d block_palette vox_palette order = .ok pal) :
    create_patterns zlibC lz4C d block_palette vox_palette order voxels sx sy sz =
      emit_loop
        (fun off =>
          match model_to_data (model_data_fun voxels) pal
              (fun c => (List.findIdx? (fun x => x == c) order).map (· % 256))
              (off.1 % 256, off.2.1 % 256, off.2.2 % 256) with
          | .error e => .error e
          | .ok none => .ok none
          | .ok (some ds) =>
            .ok (some (data_to_pattern zlibC lz4C
              { chiseled_data := { data := ds.1, palette := pal },
                statistics := ds.2 })))
        (chunks_along sx == 1 && chunks_along sy == 1 && chunks_along sz == 1)
        (chunk_offsets sx sy sz) 0 := by
  unfold create_patterns
  rw [if_pos hall, hpal]

theorem chunk_offsets_getElem (sx sy sz j : Nat)
    (hj : j < chunks_along sx * chunks_along sy * chunks_along sz) :
    (chunk_offsets sx sy sz)[j]? =
      some (16 * (j / (chunks_along sy * chunks_along sz)),
        16 * (j / chunks_along sz % chunks_along sy),
        16 * (j % chunks_along sz)) := by
  have hH : 0 < chunks_along sz := by
    by_contra hc
    have hz0 : chunks_along sz = 0 := by omega
    rw [hz0] at hj
    simp at hj
  have hW : 0 < chunks_along sy := by
    by_contra hc
    have hy0 : chunks_along sy = 0 := by omega
    rw [hy0] at hj
    simp at hj
  have hWH : 0 < chunks_along sy * chunks_along sz := Nat.mul_pos hW hH
  have hy : j % (chunks_along sy * chunks_along sz) / chunks_along sz =
      j / chunks_along sz % chunks_along sy := by
    rw [Nat.mul_comm (chunks_along sy) (chunks_along sz),
      Nat.mod_mul_right_div_self]
  have hz : j % (chunks_along sy * chunks_along sz) % chunks_along sz =
      j % chunks_along sz :=
    Nat.mod_mod_of_dvd j ⟨chunks_along sy, by ring⟩
  unfold chunk_offsets
  rw [List.range_eq_range']
  rw [range_flatMap_getElem _ (chunks_along sy * chunks_along sz) (chunks_along sx) j 0
    (fun x => by
      rw [flatMap_const_length _ (chunks_along sz) (fun y => by simp)]
      simp)
    (by rw [← Nat.mul_assoc]; exact hj)]
  simp only [Nat.zero_add]
  rw [List.range_eq_range']
  rw [range_flatMap_getElem _ (chunks_along sz) (chunks_along sy)
    (j % (chunks_along sy * chunks_along sz)) 0
    (fun y => by simp)
    (Nat.mod_lt _ hWH)]
  simp only [Nat.zero_add, hy, hz]
  rw [List.getElem?_map, List.getElem?_range (Nat.mod_lt _ hH)]
  simp only [Option.map_some', Option.some.injEq, Prod.mk.injEq, BLOCK_SIDE]
  refine ⟨by ring, by ring, by ring⟩

theorem model_to_data_ok_dissect (model : Nat → Option Nat)
    (palette : List PaletteEntry) (pm : Nat → Option Nat)
    (offset : Nat × Nat × Nat) (r : Option (List Int × Statistics))
    (h : model_to_data model palette pm offset = .ok r) :
    ∃ cells vals,
      mapMExcept (cellRaw model offset)
        (List.range (BLOCK_SIDE * BLOCK_SIDE * BLOCK_SIDE)) = .ok cells ∧
      mapMExcept (cellToVal palette.length pm) cells = .ok vals ∧
      (r = none ↔ (cells.all fun c => c.isNone) = true) ∧
      ∀ dta st, r = some (dta, st) →
        dta = (bitsToBytes (vals.flatMap
          (natToBitsLE (entry_width palette.length)))).map byteToI8 := by
  unfold model_to_data at h
  by_cases hp : palette.length = 0
  · rw [if_pos hp] at h
    cases h
  rw [if_neg hp] at h
  match hcells : mapMExcept (cellRaw model offset)
      (List.range (BLOCK_SIDE * BLOCK_SIDE * BLOCK_SIDE)) with
  | .error e => rw [hcells] at h; simp only [] at h; cases h
  | .ok cells =>
    rw [hcells] at h
    simp only [] at h
    match hvals : mapMExcept (cellToVal palette.length pm) cells with
    | .error e => rw [hvals] at h; simp only [] at h; cases h
    | .ok vals =>
      rw [hvals] at h
      simp only [] at h
      by_cases hchk : ((vals.all fun v =>
          decide (v < 2 ^ entry_width palette.length) &&
            decide (v < palette.length)) &&
          decide (entry_width palette.length ≤ 8)) = true
      · rw [if_pos hchk] at h
        by_cases hall : (cells.all fun c => c.isNone) = true
        · rw [if_pos hall] at h
          cases h
          exact ⟨cells, vals, rfl, hvals, iff_of_true rfl hall,
            fun dta st hcon => by cases hcon⟩
        · rw [if_neg hall] at h
          cases h
          refine ⟨cells, vals, rfl, hvals,
            iff_of_false (by simp) hall, ?_⟩
          intro dta st hsome
          cases hsome
          rfl
      · rw [if_neg hchk] at h
        cases h

/-- Claim C2: for every chunk that `model_to_data` emits, the bit width per
material index is the ceiling base-2 logarithm of the palette length (air
entry included), and the packed buffer holds exactly
`ceil(4096 * bitWidth / 8)` bytes, 4096 being the fixed 16x16x16 chunk
volume. -/
theorem model_to_data_bitwidth_length (model : Nat → Option Nat)
    (palette : List PaletteEntry) (pm : Nat → Option Nat)
    (offset : Nat × Nat × Nat) (dta : List Int) (st : Statistics)
    (h : model_to_data model palette pm offset = .ok (some (dta, st))) :
    entry_width palette.length = Nat.clog 2 palette.length ∧
    dta.length = (4096 * Nat.clog 2 palette.length + 7) / 8 := by
  obtain ⟨cells, vals, hcells, hvals, _, hsome⟩ :=
    model_to_data_ok_dissect model palette pm offset _ h
  have hdta := hsome dta st rfl
  have hclen : cells.length = 4096 := by
    have := mapMExcept_ok_length _ _ _ hcells
    simpa [BLOCK_SIDE] using this
  have hvlen : vals.length = 4096 := by
    have := mapMExcept_ok_length _ _ _ hvals
    omega
  refine ⟨entry_width_eq_clog _, ?_⟩
  rw [hdta, List.length_map, bitsToBytes_length,
    flatMap_const_length _ (entry_width palette.length) (natToBitsLE_length _),
    hvlen, ← entry_width_eq_clog]
  have h8 : 4096 * entry_width palette.length =
      8 * (512 * entry_width palette.length) := by ring
  rw [h8, Nat.mul_div_cancel_left _ (by norm_num)]
  omega

/-- Claim C4: a `model_to_data` run that completes returns `None` exactly when
no consulted coordinate of the chunk holds a voxel (every local position
resolves to the air index); and in the emission loop a `None` chunk
contributes no output file — the number of emitted files is the number of
offsets whose step emits a pattern. -/
theorem model_to_data_none_iff (model : Nat → Option Nat)
    (palette : List PaletteEntry) (pm : Nat → Option Nat)
    (offset : Nat × Nat × Nat) (r : Option (List Int × Statistics))
    (h : model_to_data model palette pm offset = .ok r) :
    (r = none ↔ ∀ i < 4096, model (consulted_index offset i) = none) ∧
    ∀ (step : Nat × Nat × Nat → Except Unit (Option (List Nat))) (b : Bool)
      (os : List (Nat × Nat × Nat)) (idx : Nat)
      (files : List (Option Nat × List Nat)),
      emit_loop step b os idx = .ok files →
      files.length = os.countP fun o => isEmit (step o) := by
  obtain ⟨cells, vals, hcells, hvals, hiff, _⟩ :=
    model_to_data_ok_dissect model palette pm offset _ h
  have hdet : ∀ i ∈ List.range (BLOCK_SIDE * BLOCK_SIDE * BLOCK_SIDE),
      ∀ c, cellRaw model offset i = .ok c → c = model (consulted_index offset i) := by
    intro i _ c hc
    unfold cellRaw at hc
    by_cases hb : consulted_index offset i <
        VOXEL_MAX_SIDE * VOXEL_MAX_SIDE * VOXEL_MAX_SIDE
    · rw [if_pos hb] at hc
      cases hc
      rfl
    · rw [if_neg hb] at hc
      cases hc
  have hcells_eq := mapMExcept_ok_eq_map _ _ _ _ hdet hcells
  refine ⟨?_, fun step b os idx files hf => emit_loop_length step b os idx files hf⟩
  rw [hiff, hcells_eq]
  exact cells_all_iff model offset

/-- Claim C3: for every model, the shared chunk palette built by
`create_patterns` has length equal to the number of distinct colour slots
used by the model's voxels plus one, its final entry is the synthetic air
entry, and every emitted chunk is encoded against this exact same palette.
The used-colour set iterates in the unspecified hash-set order `order`,
constrained only to enumerate exactly the used colours without repetition. -/
theorem create_patterns_shared_palette {γ : Type}
    (d : γ → γ → ℚ) (block_palette : List (γ × List Nat))
    (vox_palette : List γ) (order : List Nat) (voxels : List Voxel)
    (pal : List PaletteEntry)
    (hnodup : order.Nodup)
    (hmem : ∀ c, c ∈ order ↔ ∃ v ∈ voxels, v.i = c)
    (hpal : chisel_palette_of d block_palette vox_palette order = .ok pal) :
    pal.length = ((voxels.map Voxel.i).dedup).length + 1 ∧
    pal.getLast? = some airEntry ∧
    ∀ (zlibC lz4C : List Nat → List Nat) (sx sy sz : Nat)
      (files : List (Option Nat × List Nat)),
      create_patterns zlibC lz4C d block_palette vox_palette order voxels
        sx sy sz = .ok files →
      ∀ f ∈ files, ∃ ds : List Int × Statistics,
        f.2 = data_to_pattern zlibC lz4C
          { chiseled_data := { data := ds.1, palette := pal },
            statistics := ds.2 } := by
  obtain ⟨hlen, hlast⟩ :=
    chisel_palette_of_ok d block_palette vox_palette order pal hpal
  refine ⟨?_, hlast, ?_⟩
  · rw [hlen, order_length_eq_dedup_length order voxels hnodup hmem]
  · intro zlibC lz4C sx sy sz files hcp f hf
    unfold create_patterns at hcp
    by_cases hall : (voxels.all fun v =>
        decide (index_from_position v.x v.y v.z <
          VOXEL_MAX_SIDE * VOXEL_MAX_SIDE * VOXEL_MAX_SIDE)) = true
    · rw [if_pos hall, hpal] at hcp
      simp only [] at hcp
      obtain ⟨o, _, hstep⟩ := emit_loop_mem _ _ _ _ _ hcp f hf
      revert hstep
      match hmd : model_to_data (model_data_fun voxels) pal
          (fun c => (List.findIdx? (fun x => x == c) order).map (· % 256))
          (o.1 % 256, o.2.1 % 256, o.2.2 % 256) with
      | .error e => intro hstep; simp at hstep
      | .ok none => intro hstep; simp at hstep
      | .ok (some ds) =>
        intro hstep
        simp only [Except.ok.injEq, Option.some.injEq] at hstep
        exact ⟨ds, hstep.symm⟩
    · rw [if_neg hall] at hcp
      cases hcp

/-- Claim C5: for every non-empty material palette and input colour,
`closest_block` returns the material of some palette entry whose distance to
the colour is at most that of every other entry. The CIEDE2000-in-Lch metric
of the external colour crate enters as the abstract distance `d`. -/
theorem closest_block_spec {γ : Type} (d : γ → γ → ℚ)
    (mapping : List (γ × List Nat)) (color : γ) (hne : mapping ≠ []) :
    ∃ e ∈ mapping, closest_block d mapping color = some e.2 ∧
      ∀ q ∈ mapping, d e.1 color ≤ d q.1 color :=
  closest_block_min d mapping color hne

/-- Claim C6: the voxel-model cell consulted by `model_to_data` for local
index `i` and base offset `(ox, oy, oz)` is
`index_from_position (lz + ox) (lx + oy) (ly + oz)` where
`(lx, ly, lz) = position_from_index i`: a fixed non-identity axis permutation
combined with the base offset. The offset bound covers every representable
chunk base offset (a multiple of 16 truncated to `u8` is at most 240). -/
theorem consulted_index_axis_permutation (i o0 o1 o2 : Nat) (hi : i < 4096)
    (h0 : o0 ≤ 240) (h1 : o1 ≤ 240) (h2 : o2 ≤ 240) :
    consulted_index (o0, o1, o2) i =
      index_from_position ((position_from_index i).2.2 + o0)
        ((position_from_index i).1 + o1) ((position_from_index i).2.1 + o2) := by
  unfold consulted_index index_from_position position_from_index
  unfold VOXEL_MAX_SIDE BLOCK_SIDE
  simp only []
  omega

/-- Claim C7: `create_patterns` enumerates exactly
`ceil(sx/16) * ceil(sy/16) * ceil(sz/16)` chunk offsets, in nested order with
the first axis outermost and the third innermost; when that product is one
the single output carries no index suffix, and otherwise the emitted files
are suffixed 0, 1, 2, … in enumeration order. -/
theorem chunk_enumeration_naming {γ : Type} (zlibC lz4C : List Nat → List Nat)
    (d : γ → γ → ℚ) (block_palette : List (γ × List Nat))
    (vox_palette : List γ) (order : List Nat) (voxels : List Voxel)
    (sx sy sz : Nat) :
    (chunk_offsets sx sy sz).length =
      chunks_along sx * chunks_along sy * chunks_along sz ∧
    (∀ j < chunks_along sx * chunks_along sy * chunks_along sz,
      (chunk_offsets sx sy sz)[j]? =
        some (16 * (j / (chunks_along sy * chunks_along sz)),
          16 * (j / chunks_along sz % chunks_along sy),
          16 * (j % chunks_along sz))) ∧
    ∀ files, create_patterns zlibC lz4C d block_palette vox_palette order
        voxels sx sy sz = .ok files →
      if chunks_along sx * chunks_along sy * chunks_along sz = 1 then
        ∀ f ∈ files, f.1 = none
      else files.map Prod.fst = (List.range files.length).map some := by
  refine ⟨chunk_offsets_length sx sy sz,
    fun j hj => chunk_offsets_getElem sx sy sz j hj, ?_⟩
  intro files hcp
  unfold create_patterns at hcp
  by_cases hall : (voxels.all fun v =>
      decide (index_from_position v.x v.y v.z <
        VOXEL_MAX_SIDE * VOXEL_MAX_SIDE * VOXEL_MAX_SIDE)) = true
  · rw [if_pos hall] at hcp
    match hpal : chisel_palette_of d block_palette vox_palette order with
    | .error e => rw [hpal] at hcp; simp at hcp
    | .ok pal =>
      rw [hpal] at hcp
      simp only [] at hcp
      have hsuff := emit_loop_suffixes _ _ _ _ _ hcp
      have hop : ((chunks_along sx == 1 && chunks_along sy == 1 &&
          chunks_along sz == 1) = true) ↔
          chunks_along sx * chunks_along sy * chunks_along sz = 1 := by
        simp only [Bool.and_eq_true, beq_iff_eq, and_assoc]
        constructor
        · rintro ⟨h1, h2, h3⟩
          rw [h1, h2, h3]
        · intro hprod
          have ha : chunks_along sx ∣ 1 :=
            ⟨chunks_along sy * chunks_along sz, by rw [← hprod]; ring⟩
          have hb : chunks_along sy ∣ 1 :=
            ⟨chunks_along sx * chunks_along sz, by rw [← hprod]; ring⟩
          have hc : chunks_along sz ∣ 1 :=
            ⟨chunks_along sx * chunks_along sy, by rw [← hprod]; ring⟩
          exact ⟨Nat.dvd_one.mp ha, Nat.dvd_one.mp hb, Nat.dvd_one.mp hc⟩
      by_cases hone : chunks_along sx * chunks_along sy * chunks_along sz = 1
      · rw [if_pos hone]
        rw [show (chunks_along sx == 1 && chunks_along sy == 1 &&
          chunks_along sz == 1) = true from hop.mpr hone] at hsuff
        simpa using hsuff
      · rw [if_neg hone]
        have hfalse : (chunks_along sx == 1 && chunks_along sy == 1 &&
            chunks_along sz == 1) = false := by
          by_contra hc
          have : (chunks_along sx == 1 && chunks_along sy == 1 &&
              chunks_along sz == 1) = true := by
            cases hb : (chunks_along sx == 1 && chunks_along sy == 1 &&
              chunks_along sz == 1)
            · exact absurd hb hc
            · rfl
          exact hone (hop.mp this)
        rw [hfalse] at hsuff
        simp only [if_neg Bool.false_ne_true] at hsuff
        rw [hsuff, List.range_eq_range']
  · rw [if_neg hall] at hcp
    cases hcp

/-- Claim C8 counterexample: an empty material palette is not rejected when
the palette file is loaded — `from_json` of the empty mapping succeeds — and
`closest_block` on the empty palette is precisely where the failure first
appears (the `first().unwrap()` panic during matching). -/
theorem from_json_accepts_empty :
    from_json (fun _ => (none : Option ℚ)) [] = .ok [] ∧
    closest_block (fun _ _ : ℚ => 0) [] 0 = none :=
  ⟨rfl, by simp [closest_block, List.mergeSort_nil]⟩

/-- Claim C8 (amended): loading performs no emptiness check — an empty palette
map loads successfully — and `closest_block` fails exactly on the empty
palette, so the empty palette is first detected during matching, not at load
time. -/
theorem empty_palette_detected_in_matching :
    (∀ (γ : Type) (parse_color : List Nat → Option γ),
      from_json parse_color [] = .ok []) ∧
    ∀ (γ : Type) (d : γ → γ → ℚ) (mapping : List (γ × List Nat)) (c : γ),
      closest_block d mapping c = none ↔ mapping = [] := by
  refine ⟨fun γ parse_color => rfl, ?_⟩
  intro γ d mapping c
  constructor
  · intro h
    by_contra hne
    obtain ⟨e, _, hcb, _⟩ := closest_block_min d mapping c hne
    rw [hcb] at h
    cases h
  · rintro rfl
    simp [closest_block, List.mergeSort_nil]

/-- Claim C9 (refuted by the code): a voxel with a coordinate component 255 —
outside the dense index's supported 0..254 range — is neither rejected nor
silently ignored: the voxel at (0, 0, 255) passes the only bounds check in
`create_patterns`, yet its write lands in the dense-array cell belonging to
the in-range coordinate (0, 1, 0), corrupting it; a first component of 255
indexes at or past the array length (the out-of-bounds panic). -/
theorem voxel_255_aliases_in_range_cell :
    index_from_position 0 0 255 = index_from_position 0 1 0 ∧
    (([⟨0, 0, 255, 5⟩] : List Voxel).all fun v =>
      decide (index_from_position v.x v.y v.z <
        VOXEL_MAX_SIDE * VOXEL_MAX_SIDE * VOXEL_MAX_SIDE)) = true ∧
    model_data_fun [⟨0, 0, 255, 5⟩] (index_from_position 0 1 0) = some 5 ∧
    VOXEL_MAX_SIDE * VOXEL_MAX_SIDE * VOXEL_MAX_SIDE ≤
      index_from_position 255 0 0 := by
  refine ⟨by decide, by decide, by decide, by decide⟩

/-- Claim C10: `index_from_position` is injective on coordinate triples with
all components at most 254 and stays below the dense array length `255^3`
there, so those accesses are in bounds; the triples (0,0,255) and (0,1,0)
collide; and a first component of 255 yields an index at or past the array
length. -/
theorem index_from_position_props :
    (∀ x1 y1 z1 x2 y2 z2 : Nat, x1 ≤ 254 → y1 ≤ 254 → z1 ≤ 254 →
      x2 ≤ 254 → y2 ≤ 254 → z2 ≤ 254 →
      index_from_position x1 y1 z1 = index_from_position x2 y2 z2 →
      (x1, y1, z1) = (x2, y2, z2)) ∧
    (∀ x y z : Nat, x ≤ 254 → y ≤ 254 → z ≤ 254 →
      index_from_position x y z <
        VOXEL_MAX_SIDE * VOXEL_MAX_SIDE * VOXEL_MAX_SIDE) ∧
    index_from_position 0 0 255 = index_from_position 0 1 0 ∧
    ∀ y z : Nat, y ≤ 255 → z ≤ 255 →
      VOXEL_MAX_SIDE * VOXEL_MAX_SIDE * VOXEL_MAX_SIDE ≤
        index_from_position 255 y z := by
  refine ⟨?_, ?_, by decide, ?_⟩
  · intro x1 y1 z1 x2 y2 z2 hx1 hy1 hz1 hx2 hy2 hz2 heq
    unfold index_from_position VOXEL_MAX_SIDE at heq
    have hc : x1 = x2 ∧ y1 = y2 ∧ z1 = z2 := by omega
    simp [hc.1, hc.2.1, hc.2.2]
  · intro x y z hx hy hz
    unfold index_from_position VOXEL_MAX_SIDE
    omega
  · intro y z hy hz
    unfold index_from_position VOXEL_MAX_SIDE
    omega

/-! Concrete instances exercising the claim theorems. -/

/-- A one-entry document with a one-byte material name. -/
def docW : Data :=
  { chiseled_data := { data := [0], palette := [⟨nameState [97]⟩] },
    statistics :=
      { primary_state := ⟨nameState [97]⟩,
        block_states := [{ block_information := ⟨nameState [97]⟩, count := 1 }] } }

theorem pattern_roundtrip_witness :
    pattern_decode id id (data_to_pattern id id docW) = some docW :=
  pattern_roundtrip id id id id docW (fun _ => rfl) (fun _ => rfl)
    (by decide) (by decide) (by decide) (by decide) (by decide) (by decide)
    (by decide) (by decide) (by decide)

/-- A model holding one voxel of colour 7 at array index 0. -/
def modelW : Nat → Option Nat := fun idx => if idx = 0 then some 7 else none

/-- A two-entry chunk palette: one material plus the air entry. -/
def paletteW : List PaletteEntry := [⟨nameState [97]⟩, airEntry]

/-- The mapping sending colour 7 to chunk-palette index 0. -/
def pmW : Nat → Option Nat := fun c => if c = 7 then some 0 else none

theorem model_to_data_bitwidth_length_witness :
    ∃ ds : List Int × Statistics,
      model_to_data modelW paletteW pmW (0, 0, 0) = .ok (some ds) ∧
      ds.1.length = (4096 * Nat.clog 2 paletteW.length + 7) / 8 := by
  have hbound : ∀ i < 4096, consulted_index (0, 0, 0) i <
      VOXEL_MAX_SIDE * VOXEL_MAX_SIDE * VOXEL_MAX_SIDE :=
    fun i hi => consulted_index_lt_of_le 0 0 0 i hi (by omega) (by omega) (by omega)
  have hmap : ∀ i < 4096, ∀ c, modelW (consulted_index (0, 0, 0) i) = some c →
      ∃ m, pmW c = some m ∧ m < paletteW.length := by
    intro i hi c hc
    unfold modelW at hc
    by_cases h0 : consulted_index (0, 0, 0) i = 0
    · rw [if_pos h0] at hc
      cases hc
      exact ⟨0, rfl, by decide⟩
    · rw [if_neg h0] at hc
      cases hc
  obtain ⟨r, hr, hiff⟩ := model_to_data_char modelW paletteW pmW (0, 0, 0)
    (by decide) (by decide) hbound hmap
  have hrne : r ≠ none := by
    intro hrn
    have h0 := hiff.mp hrn 0 (by norm_num)
    rw [show consulted_index (0, 0, 0) 0 = 0 from by decide] at h0
    unfold modelW at h0
    simp at h0
  match r, hr, hrne with
  | none, hr, hrne => exact absurd rfl hrne
  | some ds, hr, _ =>
    exact ⟨ds, hr,
      (model_to_data_bitwidth_length modelW paletteW pmW (0, 0, 0) ds.1 ds.2 hr).2⟩

theorem model_to_data_none_iff_witness :
    ∃ r, model_to_data (fun _ => none) paletteW pmW (0, 0, 0) = .ok r ∧
      r = none := by
  have hbound : ∀ i < 4096, consulted_index (0, 0, 0) i <
      VOXEL_MAX_SIDE * VOXEL_MAX_SIDE * VOXEL_MAX_SIDE :=
    fun i hi => consulted_index_lt_of_le 0 0 0 i hi (by omega) (by omega) (by omega)
  obtain ⟨r, hr, _⟩ := model_to_data_char (fun _ => none) paletteW pmW (0, 0, 0)
    (by decide) (by decide) hbound (fun i hi c hc => by cases hc)
  refine ⟨r, hr, ?_⟩
  exact (model_to_data_none_iff (fun _ => none) paletteW pmW (0, 0, 0) r hr).1.mpr
    (fun i hi => rfl)

/-- A one-voxel model using colour slot 3. -/
def voxelsW : List Voxel := [⟨0, 0, 0, 3⟩]

theorem chisel_palette_of_voxelsW :
    chisel_palette_of (γ := ℚ) (fun _ _ => 0) [((0 : ℚ), [97])] [0, 0, 0, 0] [3] =
      .ok paletteW := by
  unfold chisel_palette_of mapMExcept
  simp [closest_block, List.mergeSort_singleton, paletteW]
  rfl

theorem create_patterns_shared_palette_witness :
    paletteW.length = ((voxelsW.map Voxel.i).dedup).length + 1 ∧
    paletteW.getLast? = some airEntry := by
  have h := create_patterns_shared_palette (γ := ℚ) (fun _ _ => 0)
    [((0 : ℚ), [97])] [0, 0, 0, 0] [3] voxelsW paletteW
    (by decide) (by intro c; simp [voxelsW, eq_comm]) chisel_palette_of_voxelsW
  exact ⟨h.1, h.2.1⟩

theorem closest_block_spec_witness :
    ∃ e ∈ [((0 : ℚ), [97]), ((3 : ℚ), [98])],
      closest_block (fun a b => (a - b) * (a - b))
        [((0 : ℚ), [97]), ((3 : ℚ), [98])] 1 = some e.2 ∧
      ∀ q ∈ [((0 : ℚ), [97]), ((3 : ℚ), [98])],
        (fun a b : ℚ => (a - b) * (a - b)) e.1 1 ≤
          (fun a b : ℚ => (a - b) * (a - b)) q.1 1 :=
  closest_block_spec _ _ _ (by simp)

theorem consulted_index_axis_permutation_witness :
    consulted_index (16, 32, 48) 17 =
      index_from_position ((position_from_index 17).2.2 + 16)
        ((position_from_index 17).1 + 32) ((position_from_index 17).2.1 + 48) :=
  consulted_index_axis_permutation 17 16 32 48 (by decide) (by decide) (by decide)
    (by decide)

theorem chunk_enumeration_naming_witness :
    (chunk_offsets 32 16 16).length = 2 ∧
    (chunk_offsets 32 16 16)[1]? = some (16, 0, 0) := by
  have h := chunk_enumeration_naming (γ := ℚ) id id (fun _ _ => 0) [] [] [] []
    32 16 16
  exact ⟨h.1.trans (by decide), (h.2.1 1 (by decide)).trans (by decide)⟩

theorem empty_palette_detected_in_matching_witness :
    from_json (fun _ => (none : Option ℚ)) [] = .ok [] ∧
    (closest_block (fun _ _ : ℚ => 0) [] 2 = none ↔
      ([] : List (ℚ × List Nat)) = []) :=
  ⟨empty_palette_detected_in_matching.1 ℚ _,
    empty_palette_detected_in_matching.2 ℚ _ [] 2⟩

theorem index_from_position_props_witness :
    ((1, 2, 3) : Nat × Nat × Nat) = (1, 2, 3) ∧
    index_from_position 10 20 30 <
      VOXEL_MAX_SIDE * VOXEL_MAX_SIDE * VOXEL_MAX_SIDE ∧
    VOXEL_MAX_SIDE * VOXEL_MAX_SIDE * VOXEL_MAX_SIDE ≤
      index_from_position 255 7 9 :=
  ⟨index_from_position_props.1 1 2 3 1 2 3 (by decide) (by decide) (by decide)
      (by decide) (by decide) (by decide) rfl,
    index_from_position_props.2.1 10 20 30 (by decide) (by decide) (by decide),
    index_from_position_props.2.2.2 7 9 (by decide) (by decide)⟩

end CNI
